import Mathlib

/-
  Verification model of the OpenPNM invasion-percolation algorithm
  (OpenPNM/Algorithms/__InvasionPercolation__.py).

  Modelling conventions:
  * numpy float64 arithmetic is modelled by exact rational arithmetic (ℚ);
    np.pi is the exact rational value of the float64 constant.
  * A python heapq heap of (pressure, throat) tuples is modelled as a list
    kept sorted in the lexicographic tuple order: heappush is ordered
    insertion, heappop takes the head, heapify sorts, and heapq.merge is
    the merge of two ordered lists.  This realises the heap contract the
    source relies on (the head of the structure is the minimum element).
  * Euclidean distances are tracked squared (sqrt is strictly monotone on
    nonnegative arguments, so every comparison the source performs on
    distances is performed here on squared distances).  The only other use
    of a distance is the progress-percentage report, whose formula is kept
    separately as percent_complete.
  * Logging, timers and progress printing have no effect on the simulation
    state and are omitted; the error branch of the round-robin cluster scan
    is modelled by an error-counting scan function.
  * Python list/array reads are modelled with getD / a python-style indexer
    that honours negative indices (the algorithm genuinely reads index -1).
  * Fallible operations (heappop from an empty heap, indexing an empty
    interface list) return Except values; loops take explicit fuel.
-/

set_option linter.unusedVariables false

namespace IPModel

/-- Python-style list read: a negative index counts from the end of the
list (as for numpy arrays); out-of-range reads return the default. -/
def pyGet {α : Type} (l : List α) (i : ℤ) (d : α) : α :=
  if i < 0 then l.getD (l.length - (-i).toNat) d else l.getD i.toNat d

/-- The value of the numpy float64 constant np.pi, as an exact rational. -/
def npPi : ℚ := 884279719003555 / 281474976710656

/-- The literal 100000000000000000000000000000000 (ten to the 32) that the
source stores into haines_time as a stand-in for an infinite event time. -/
def sentinelTime : ℚ := 100000000000000000000000000000000

/-- Set entry i of a rational array to f of its current value. -/
def ladj (l : List ℚ) (i : ℕ) (f : ℚ → ℚ) : List ℚ := l.set i (f (l.getD i 0))

/-- The immutable network data the algorithm consumes: coordinates, volumes
and diameters per pore/throat, the capillary entry pressure array of the
invading phase, and throat connectivity. -/
structure PNNetwork where
  coords : List (ℚ × ℚ × ℚ)
  poreVolume : List ℚ
  throatVolume : List ℚ
  throatDiameter : List ℚ
  capPressure : List ℚ
  conns : List (ℕ × ℕ)
  deriving DecidableEq, Repr

/-- Run configuration of InvasionPercolation.run: inlet pores (one cluster
each), outlet pores, end condition ('total' versus 'breakthrough'), the
timing switch and the per-cluster inlet flow rate. -/
structure IPConfig where
  inlets : List ℕ
  outlets : List ℤ
  endTotal : Bool
  timing : Bool
  inletFlow : ℚ
  deriving DecidableEq, Repr

/-- The mutable state of one invasion-percolation run: the per-pore and
per-throat result arrays, the per-cluster bookkeeping arrays
(self._cluster_data), the per-cluster frontier structures (self._tlists and
self._tpoints), and the scalar loop variables. -/
structure IPState where
  poreClusterFinal : List ℕ
  poreClusterOriginal : List ℕ
  throatClusterFinal : List ℕ
  poreInvSeq : List ℕ
  throatInvSeq : List ℕ
  poreInvTime : List ℚ
  throatInvTime : List ℚ
  flowRate : List ℚ
  hainesPressure : List ℚ
  hainesTime : List ℚ
  volCoef : List ℚ
  capVolume : List ℚ
  clusterPoreVolume : List ℚ
  hainesThroat : List ℕ
  active : List ℕ
  transform : List ℕ
  tlists : List (List ℕ)
  tpoints : List (List (ℚ × ℕ))
  tseq : ℕ
  pseq : ℕ
  simTime : ℚ
  currentCluster : ℕ
  newPore : ℤ
  condition : Bool
  brkevent : List ℤ
  outletPosition : ℚ × ℚ × ℚ
  initialDistSq : ℚ
  currentDistSq : ℚ
  poreSat : List ℚ
  throatSat : List ℚ
  deriving DecidableEq, Repr

/-- Modelled from the spec: the Graph Accessor collaborator (the network
object is outside the algorithm source).  neighbor_throats of a pore set is
the set of throats with an endpoint in the set, returned in ascending
throat order. -/
def find_neighbor_throats (net : PNNetwork) (ps : List ℕ) : List ℕ :=
  (List.range net.conns.length).filter (fun t =>
    let c := net.conns.getD t (0, 0)
    ps.contains c.1 || ps.contains c.2)

/-- Modelled from the spec: connected_pores of a throat (the pair of
endpoint pore ids held by the network). -/
def find_connected_pores (net : PNNetwork) (t : ℕ) : ℕ × ℕ := net.conns.getD t (0, 0)

/-- Lexicographic order on (pressure, throat id) pairs: the tuple order
python uses inside heapq heaps. -/
def pleLex (a b : ℚ × ℕ) : Bool :=
  decide (a.1 < b.1) || (decide (a.1 = b.1) && decide (a.2 ≤ b.2))

/-- The function heapq.heappush: ordered insertion into the sorted-list heap model. -/
def heapPush : List (ℚ × ℕ) → (ℚ × ℕ) → List (ℚ × ℕ)
  | [], e => [e]
  | h :: t, e => if pleLex h e then h :: heapPush t e else e :: h :: t

/-- The function heapq.merge of two heaps.  In the sorted-list heap model
the merge of two ordered lists is the ordered union of their elements,
realised here by ordered insertion of the second list into the first (the
result is the same ordered sequence the two-pointer merge produces, up to
the order of entries with equal keys, which carry no information). -/
def heapMerge (l1 l2 : List (ℚ × ℕ)) : List (ℚ × ℕ) := l2.foldl heapPush l1

/-- The function heapq.heapify: bring a list into heap order (sorted-list model). -/
def heapify (l : List (ℚ × ℕ)) : List (ℚ × ℕ) := l.foldl heapPush []

/-- The throat volume coefficients tdia*tdia*tdia*np.pi/12/Pc_entry
computed once during _setup_for_IP when timing is on. -/
def tvol_coef (net : PNNetwork) : List ℚ :=
  List.zipWith (fun d pc => d * d * d * npPi / 12 / pc) net.throatDiameter net.capPressure

/-- Squared Euclidean distance between two coordinate triples. -/
def distSq3 (a b : ℚ × ℚ × ℚ) : ℚ :=
  (a.1 - b.1) * (a.1 - b.1) + (a.2.1 - b.2.1) * (a.2.1 - b.2.1) +
    (a.2.2 - b.2.2) * (a.2.2 - b.2.2)

/-- The function np.average of a set of pore coordinates (componentwise mean). -/
def centroid (coords : List (ℚ × ℚ × ℚ)) (ids : List ℤ) : ℚ × ℚ × ℚ :=
  let pts := ids.map (fun i => pyGet coords i (0, 0, 0))
  let n : ℚ := (pts.length : ℚ)
  (((pts.map (fun p => p.1)).sum) / n,
   ((pts.map (fun p => p.2.1)).sum) / n,
   ((pts.map (fun p => p.2.2)).sum) / n)

/-- The progress formula of _setup_for_IP and _condition_update:
(initial_distance - current_distance)/initial_distance * 100 (np.round is
omitted; it does not affect whether the division is by zero). -/
def percent_complete (initialDistance currentDistance : ℚ) : ℚ :=
  (initialDistance - currentDistance) / initialDistance * 100

/-- The fresh state allocated at the start of a run (size Np / Nt / cluster
count arrays, transform the identity map i ↦ i+1, all clusters active).
The timing-only arrays are allocated unconditionally here but are only read
and written when timing is on, matching the source, which only creates them
in that case. -/
def initState (cfg : IPConfig) (net : PNNetwork) : IPState :=
  let nP := net.poreVolume.length
  let nT := net.conns.length
  let cc := cfg.inlets.length
  { poreClusterFinal := List.replicate nP 0
    poreClusterOriginal := List.replicate nP 0
    throatClusterFinal := List.replicate nT 0
    poreInvSeq := List.replicate nP 0
    throatInvSeq := List.replicate nT 0
    poreInvTime := List.replicate nP (-1)
    throatInvTime := List.replicate nT (-1)
    flowRate := List.replicate cc cfg.inletFlow
    hainesPressure := List.replicate cc 0
    hainesTime := List.replicate cc 0
    volCoef := List.replicate cc 0
    capVolume := List.replicate cc 0
    clusterPoreVolume := List.replicate cc 0
    hainesThroat := List.replicate cc 0
    active := List.replicate cc 1
    transform := (List.range cc).map (· + 1)
    tlists := []
    tpoints := []
    tseq := 1
    pseq := 1
    simTime := 0
    currentCluster := 0
    newPore := -1
    condition := true
    brkevent := []
    outletPosition := (0, 0, 0)
    initialDistSq := 0
    currentDistSq := 0
    poreSat := []
    throatSat := [] }

/-- The pores currently labelled with cluster k
(np.where(self['pore.IP_cluster_final']==clusterNumber)). -/
def pores_with_label (s : IPState) (k : ℕ) : List ℕ :=
  (List.range s.poreClusterFinal.length).filter (fun p => s.poreClusterFinal.getD p 0 == k)

/-- The per-inlet loop of _setup_for_IP: cluster k invades its inlet pore
(sequence 1, time 0), gathers the bordering throats into its frontier heap
and throat list, and computes its initial haines data.  Fails when an inlet
pore has no neighbouring throat (Interface[0] would raise). -/
def seed_clusters (cfg : IPConfig) (net : PNNetwork) :
    List ℕ → ℕ → IPState → Except String IPState
  | [], _, s => .ok s
  | i :: rest, k, s =>
    let tv := tvol_coef net
    let s := if cfg.timing then
        { s with clusterPoreVolume := (s.clusterPoreVolume.set (k - 1) (net.poreVolume.getD i 0)) }
      else s
    let s := { s with poreClusterFinal := s.poreClusterFinal.set i k,
                      poreClusterOriginal := s.poreClusterOriginal.set i k,
                      poreInvSeq := s.poreInvSeq.set i s.tseq }
    let s := if cfg.timing then { s with poreInvTime := s.poreInvTime.set i s.simTime } else s
    let iface := find_neighbor_throats net (pores_with_label s k)
    let s := if cfg.timing then
        { s with volCoef := (s.volCoef.set (k - 1) ((iface.map (fun t => tv.getD t 0)).sum)) }
      else s
    let hp := heapify (iface.map (fun t => (net.capPressure.getD t 0, t)))
    let s := { s with tlists := s.tlists ++ [iface], tpoints := s.tpoints ++ [hp] }
    match hp with
    | [] => .error "no interface throats for inlet cluster"
    | info :: _ =>
      let s := if cfg.timing then
          let s := { s with hainesPressure := s.hainesPressure.set (k - 1) info.1 }
          let s := { s with capVolume := (s.capVolume.set (k - 1)
                      (s.hainesPressure.getD (k - 1) 0 * s.volCoef.getD (k - 1) 0)) }
          { s with hainesTime := (s.hainesTime.set (k - 1)
              ((s.clusterPoreVolume.getD (k - 1) 0 + s.capVolume.getD (k - 1) 0) /
                s.flowRate.getD (k - 1) 0)) }
        else s
      let s := { s with hainesThroat := s.hainesThroat.set (k - 1) info.2 }
      seed_clusters cfg net rest (k + 1) s

/-- The source's _setup_for_IP: seed one cluster per inlet, advance the sequence
counters, and record the inlet/outlet centroid geometry (squared). -/
def setup_for_IP (cfg : IPConfig) (net : PNNetwork) : Except String IPState := do
  let s ← seed_clusters cfg net cfg.inlets 1 (initState cfg net)
  let s := { s with tseq := s.tseq + 1, pseq := s.pseq + 1, currentCluster := 0 }
  let opos := centroid net.coords cfg.outlets
  let ipos := centroid net.coords (cfg.inlets.map (fun i => (i : ℤ)))
  let dsq := distSq3 opos ipos
  .ok { s with outletPosition := opos, initialDistSq := dsq, currentDistSq := dsq }

/-- The round-robin cluster scan of _do_inner_iteration_stage (untimed
mode), with explicit fuel.  Returns the cluster found (none when the fuel
runs out, i.e. within the given number of iterations the loop has not
terminated) together with the number of times the
"No clusters active. Stuck in infinite loop." error has been logged. -/
def cluster_scan (active : List ℕ) (original clusterCount : ℕ) :
    ℕ → ℕ → ℕ → ℕ → Option ℕ × ℕ
  | 0, _, _, errs => (none, errs)
  | fuel + 1, cnum, lc, errs =>
    let c := if clusterCount < cnum then 1 else cnum
    let lc2 := if c = original then lc + 1 else lc
    let errs2 := if 1 < lc2 then errs + 1 else errs
    if active.getD (c - 1) 0 = 1 then (some c, errs2)
    else cluster_scan active original clusterCount fuel (c + 1) lc2 errs2

/-- Lines 406-411: mark the popped throat invaded (sequence, and when
timing also the time stamp and the vol_coef deduction). -/
def mark_throat_invaded (cfg : IPConfig) (net : PNNetwork) (s : IPState) (tinvade : ℕ) :
    IPState :=
  let s := { s with throatInvSeq := s.throatInvSeq.set tinvade s.tseq }
  if cfg.timing then
    { s with throatInvTime := s.throatInvTime.set tinvade s.simTime,
             volCoef := (ladj s.volCoef (s.currentCluster - 1)
               (fun v => v - (tvol_coef net).getD tinvade 0)) }
  else s

/-- One transform lookup (all cluster-id lookups go through the transform
array; ids are 1-based, the array 0-based). -/
def resolve (t : List ℕ) (c : ℕ) : ℕ := t.getD (c - 1) 0

/-- Line 436: the transform update of a merge.  Both raw labels are first
resolved through the transform; every transform entry equal to the larger
canonical id is overwritten with the smaller one. -/
def transform_merge (t : List ℕ) (l1 l2 : ℕ) : List ℕ :=
  let a := resolve t l1
  let b := resolve t l2
  t.map (fun x => if x = max a b then min a b else x)

/-- Lines 460-481: the activity/time bookkeeping of a merge.  If either
participant is already inactive both are forced inactive and (timing) the
survivor is stamped with the sentinel time; the absorbed cluster is always
made inactive and (timing) stamped with the sentinel time. -/
def merge_bookkeeping (timing : Bool) (cur maxC : ℕ) (active : List ℕ) (haines : List ℚ) :
    List ℕ × List ℚ :=
  let p :=
    if active.getD (maxC - 1) 0 + active.getD (cur - 1) 0 < 2 then
      let a := (active.set (maxC - 1) 0).set (cur - 1) 0
      let h := if timing then haines.set (cur - 1) sentinelTime else haines
      (a, h)
    else (active, haines)
  let h2 := if timing then p.2.set (maxC - 1) sentinelTime else p.2
  (p.1.set (maxC - 1) 0, h2)

/-- Lines 415-484: the branch taken when both endpoint pores of the invaded
throat are already invaded.  The throat is labelled with the smaller
canonical cluster; when the raw labels differ the two clusters merge:
transform update, global relabelling, concatenation of the throat lists,
ordered merge of the two heaps, summing of the volume bookkeeping, and the
activity/time bookkeeping. -/
def merge_branch (cfg : IPConfig) (net : PNNetwork) (s : IPState) (tinvade pa pb : ℕ) :
    IPState :=
  let s := { s with newPore := -1 }
  let la := s.poreClusterFinal.getD pa 0
  let lb := s.poreClusterFinal.getD pb 0
  let ca := resolve s.transform la
  let cb := resolve s.transform lb
  let cur := min ca cb
  let s := { s with currentCluster := cur,
                    throatClusterFinal := s.throatClusterFinal.set tinvade cur }
  if la ≠ lb then
    let maxC := max ca cb
    let s := { s with transform := transform_merge s.transform la lb,
                      poreClusterFinal := (s.poreClusterFinal.map (fun x => if x = maxC then cur else x)),
                      throatClusterFinal := (s.throatClusterFinal.map (fun x => if x = maxC then cur else x)) }
    let s := { s with tlists := ((s.tlists.set (cur - 1)
                        (s.tlists.getD (cur - 1) [] ++ s.tlists.getD (maxC - 1) [])).set (maxC - 1) []) }
    let s := { s with tpoints := (s.tpoints.set (cur - 1)
                        (heapMerge (s.tpoints.getD (cur - 1) []) (s.tpoints.getD (maxC - 1) []))) }
    let s := if cfg.timing then
        let s := { s with volCoef := ((ladj s.volCoef (cur - 1)
                            (fun v => v + s.volCoef.getD (maxC - 1) 0)).set (maxC - 1) 0) }
        let s := { s with clusterPoreVolume := ((ladj s.clusterPoreVolume (cur - 1)
                            (fun v => v + s.clusterPoreVolume.getD (maxC - 1) 0)).set (maxC - 1) 0) }
        { s with flowRate := ((ladj s.flowRate (cur - 1)
                            (fun v => v + s.flowRate.getD (maxC - 1) 0)).set (maxC - 1) 0) }
      else s
    let ah := merge_bookkeeping cfg.timing cur maxC s.active s.hainesTime
    let s := { s with active := ah.1, hainesTime := ah.2 }
    { s with tpoints := s.tpoints.set (maxC - 1) [] }
  else s

/-- Lines 510-523: walk the throats neighbouring the newly invaded pore;
any throat not yet in the cluster's throat list is pushed onto the heap,
appended to the throat list, and (timing) its volume coefficient is added
to the cluster's vol_coef. -/
def process_neighbors (timing : Bool) (pres tvl : List ℚ) :
    List ℕ → List ℕ → List (ℚ × ℕ) → ℚ → List ℕ × List (ℚ × ℕ) × ℚ
  | [], tl, hp, vc => (tl, hp, vc)
  | j :: rest, tl, hp, vc =>
    if tl.contains j then process_neighbors timing pres tvl rest tl hp vc
    else
      process_neighbors timing pres tvl rest (tl ++ [j]) (heapPush hp (pres.getD j 0, j))
        (if timing then vc + tvl.getD j 0 else vc)

/-- Lines 486-523: the branch taken when an endpoint pore of the invaded
throat is still uninvaded: label the throat, invade that pore (cluster,
original cluster, time, sequence, volume accounting), and extend the
frontier with the pore's not-yet-tracked neighbouring throats. -/
def new_pore_branch (cfg : IPConfig) (net : PNNetwork) (s : IPState) (tinvade pa pb : ℕ) :
    IPState :=
  let cur := s.currentCluster
  let s := { s with throatClusterFinal := s.throatClusterFinal.set tinvade cur }
  let np2 := if s.poreClusterFinal.getD pa 0 = 0 then pa else pb
  let s := { s with newPore := (np2 : ℤ),
                    poreClusterFinal := s.poreClusterFinal.set np2 cur,
                    poreClusterOriginal := s.poreClusterOriginal.set np2 cur }
  let s := if cfg.timing then { s with poreInvTime := s.poreInvTime.set np2 s.simTime } else s
  let s := { s with poreInvSeq := s.poreInvSeq.set np2 s.tseq }
  let s := if cfg.timing then
      { s with clusterPoreVolume := (ladj s.clusterPoreVolume (cur - 1)
          (fun v => v + net.poreVolume.getD np2 0)) }
    else s
  let nbrs := find_neighbor_throats net [np2]
  let r := process_neighbors cfg.timing net.capPressure (tvol_coef net) nbrs
      (s.tlists.getD (cur - 1) []) (s.tpoints.getD (cur - 1) []) (s.volCoef.getD (cur - 1) 0)
  let s := { s with tlists := s.tlists.set (cur - 1) r.1,
                    tpoints := s.tpoints.set (cur - 1) r.2.1 }
  if cfg.timing then { s with volCoef := s.volCoef.set (cur - 1) r.2.2 } else s

/-- Lines 526-536: the lazy-deletion loop.  While the head of the heap is a
throat already invaded (by any cluster, IP_cluster_final > 0) it is popped;
when timing is on the popped throat's volume coefficient is subtracted from
the running vol_coef; if the heap empties the loop reports that the cluster
must be deactivated and stops. -/
def cleanup_loop (timing : Bool) (invaded : ℕ → Bool) (tvl : ℕ → ℚ) :
    List (ℚ × ℕ) → ℚ → List (ℚ × ℕ) × ℚ × Bool
  | [], v => ([], v, false)
  | e :: rest, v =>
    if invaded e.2 then
      let v2 := if timing then v - tvl e.2 else v
      match rest with
      | [] => ([], v2, true)
      | _ :: _ => cleanup_loop timing invaded tvl rest v2
    else (e :: rest, v, false)

/-- Lines 526-545: run the lazy-deletion loop on the current cluster's
heap and, when a valid top remains, record the next haines throat (and,
with timing, pressure and cap volume); when the loop emptied the heap the
cluster is deactivated. -/
def cleanup_phase (cfg : IPConfig) (net : PNNetwork) (s : IPState) : IPState :=
  let ci := s.currentCluster - 1
  match s.tpoints.getD ci [] with
  | [] => s
  | e :: rest =>
    let r := cleanup_loop cfg.timing (fun t => s.throatClusterFinal.getD t 0 != 0)
        (fun t => (tvol_coef net).getD t 0) (e :: rest) (s.volCoef.getD ci 0)
    let s := { s with tpoints := s.tpoints.set ci r.1,
                      volCoef := s.volCoef.set ci r.2.1,
                      active := (if r.2.2 then s.active.set ci 0 else s.active) }
    match r.1 with
    | [] => s
    | top :: _ =>
      let s := { s with hainesThroat := s.hainesThroat.set ci top.2 }
      if cfg.timing then
        let s := { s with hainesPressure := s.hainesPressure.set ci top.1 }
        { s with capVolume := (s.capVolume.set ci
            (s.hainesPressure.getD ci 0 * s.volCoef.getD ci 0)) }
      else s

/-- Lines 547-553: a cluster whose heap is empty is deactivated and, with
timing, stamped with the sentinel time. -/
def empty_deactivate (cfg : IPConfig) (s : IPState) : IPState :=
  let ci := s.currentCluster - 1
  if s.tpoints.getD ci [] = [] then
    let s := { s with active := s.active.set ci 0 }
    if cfg.timing then { s with hainesTime := s.hainesTime.set ci sentinelTime } else s
  else s

/-- Lines 554-558: with timing, recompute the haines time of a still
active cluster and clamp the entry up to the simulation clock. -/
def timing_update (cfg : IPConfig) (s : IPState) : IPState :=
  let ci := s.currentCluster - 1
  if cfg.timing then
    let s :=
      if s.active.getD ci 0 = 1 then
        { s with hainesTime := (s.hainesTime.set ci
            ((s.clusterPoreVolume.getD ci 0 + s.capVolume.getD ci 0) / s.flowRate.getD ci 0)) }
      else s
    if s.hainesTime.getD ci 0 < s.simTime then
      { s with hainesTime := s.hainesTime.set ci s.simTime }
    else s
  else s

/-- Lines 524-560: after the invasion step, clean the current cluster's
heap of already-invaded throats, record the next haines throat/pressure/
cap volume, deactivate the cluster when its heap is exhausted (stamping the
sentinel time if timing), recompute the haines time for an active cluster
and clamp it up to the simulation clock. -/
def post_cleanup (cfg : IPConfig) (net : PNNetwork) (s : IPState) : IPState :=
  timing_update cfg (empty_deactivate cfg (cleanup_phase cfg net s))

/-- Lines 413-523: dispatch on the connected pores of the invaded throat:
when both are already invaded take the merge branch, otherwise the growth
branch. -/
def invade_branch (cfg : IPConfig) (net : PNNetwork) (s : IPState) (tinvade : ℕ) :
    IPState :=
  if s.poreClusterFinal.getD (find_connected_pores net tinvade).1 0 ≠ 0 ∧
      s.poreClusterFinal.getD (find_connected_pores net tinvade).2 0 ≠ 0 then
    merge_branch cfg net s tinvade (find_connected_pores net tinvade).1
      (find_connected_pores net tinvade).2
  else
    new_pore_branch cfg net s tinvade (find_connected_pores net tinvade).1
      (find_connected_pores net tinvade).2

/-- The source's _do_one_inner_iteration: pop the current cluster's
lowest-pressure throat (heappop raises on an empty heap), mark it invaded,
dispatch on whether both endpoint pores are invaded (merge) or one is new
(growth), and run the frontier cleanup. -/
def do_one_inner_iteration (cfg : IPConfig) (net : PNNetwork) (s : IPState) :
    Except String IPState :=
  match s.tpoints.getD (s.currentCluster - 1) [] with
  | [] => .error "heappop from empty throat heap"
  | e :: rest =>
    .ok (post_cleanup cfg net (invade_branch cfg net
      (mark_throat_invaded cfg net
        { s with tpoints := s.tpoints.set (s.currentCluster - 1) rest } e.2) e.2))

/-- The source's _do_inner_iteration_stage: pick the next cluster (globally minimal
haines time when timing, first index on a tie, matching
list.index(min(list)); round-robin scan over active clusters otherwise),
update the simulation clock in timed mode, run one inner iteration, then
advance the sequence counters. -/
def pick_cluster (cfg : IPConfig) (s : IPState) : Except String IPState :=
  if cfg.timing then
    match s.hainesTime with
    | [] => Except.error "no clusters"
    | h0 :: t =>
      let m := t.foldl min h0
      Except.ok { s with currentCluster := 1 + s.hainesTime.indexOf m, simTime := m }
  else
    match (cluster_scan s.active s.currentCluster cfg.inlets.length
        (2 * cfg.inlets.length + 2) (s.currentCluster + 1) 0 0).1 with
    | some c => Except.ok { s with currentCluster := c }
    | none => Except.error "No clusters active. Stuck in infinite loop."

def do_inner_iteration_stage (cfg : IPConfig) (net : PNNetwork) (s : IPState) :
    Except String IPState := do
  let plast := s.poreClusterFinal.countP (fun x => x != 0)
  let s ← pick_cluster cfg s
  let s2 ← do_one_inner_iteration cfg net s
  let pnew := s2.poreClusterFinal.countP (fun x => x != 0)
  Except.ok { s2 with tseq := s2.tseq + 1,
                      pseq := if plast < pnew then s2.pseq + 1 else s2.pseq }

/-- Lines 563-581 of _condition_update: in breakthrough mode track the
distance of the newly invaded pore to the outlet centroid (squared), and
record it when it improves. -/
def cond_progress (cfg : IPConfig) (net : PNNetwork) (s : IPState) : IPState :=
  if cfg.endTotal then s
  else
    if distSq3 s.outletPosition (pyGet net.coords s.newPore (0, 0, 0)) < s.currentDistSq then
      { s with currentDistSq := distSq3 s.outletPosition (pyGet net.coords s.newPore (0, 0, 0)) }
    else s

/-- Lines 585-599 of _condition_update: when the new pore is an outlet,
breakthrough mode deactivates the current cluster (stamping the sentinel
time if timing) while total mode records the breakthrough event. -/
def cond_outlet (cfg : IPConfig) (s : IPState) : IPState :=
  if cfg.outlets.contains s.newPore then
    if cfg.endTotal then { s with brkevent := s.brkevent ++ [s.newPore] }
    else
      let s := { s with active := s.active.set (s.currentCluster - 1) 0 }
      if cfg.timing then
        { s with hainesTime := (s.hainesTime.set (s.currentCluster - 1) sentinelTime) }
      else s
  else s

/-- Lines 601-608 of _condition_update: when no cluster remains active the
run condition is cleared. -/
def cond_finish (s : IPState) : IPState :=
  if s.active.sum = 0 then { s with condition := false } else s

/-- The source's _condition_update: track breakthrough progress (squared
distances), handle an outlet arrival (deactivate the cluster and stamp the
sentinel time in breakthrough mode; log the event in total mode), and
clear the run condition when no cluster remains active. -/
def condition_update (cfg : IPConfig) (net : PNNetwork) (s : IPState) : IPState :=
  cond_finish (cond_outlet cfg (cond_progress cfg net s))

/-- The source's _do_one_outer_iteration: one inner iteration stage followed by the
condition update. -/
def do_one_outer_iteration (cfg : IPConfig) (net : PNNetwork) (s : IPState) :
    Except String IPState := do
  let s2 ← do_inner_iteration_stage cfg net s
  .ok (condition_update cfg net s2)

/-- The while self._condition loop of _do_outer_iteration_stage, with
explicit fuel. -/
def run_loop (cfg : IPConfig) (net : PNNetwork) : ℕ → IPState → Except String IPState
  | 0, s => if s.condition then .error "out of fuel" else .ok s
  | f + 1, s =>
    if s.condition then do
      let s2 ← do_one_outer_iteration cfg net s
      run_loop cfg net f s2
    else .ok s

/-- The numpy fancy assignment self[inv_sat][where(seq==i)] = sat. -/
def stamp_sat (i : ℕ) (sat : ℚ) : List ℕ → List ℚ → List ℚ
  | q :: qs, v :: vs => (if q = i then sat else v) :: stamp_sat i sat qs vs
  | _, _ => []

/-- Total volume of the elements invaded at sequence number i. -/
def vol_of_seq (i : ℕ) : List ℕ → List ℚ → ℚ
  | q :: qs, v :: vs => (if q = i then v else 0) + vol_of_seq i qs vs
  | _, _ => 0

/-- Lines 316-327: the post-run saturation pass.  Both saturation arrays
start at 1.0 everywhere; for each sequence number 1..tseq the cumulative
saturation is advanced by the volume fraction invaded at that number and
stamped onto the pores and throats carrying that number. -/
def sat_step (net : PNNetwork) (s : IPState) (vtotal : ℚ)
    (acc : ℚ × List ℚ × List ℚ) (i : ℕ) : ℚ × List ℚ × List ℚ :=
  let newSat := (vol_of_seq i s.poreInvSeq net.poreVolume +
    vol_of_seq i s.throatInvSeq net.throatVolume) / vtotal
  let sat := acc.1 + newSat
  (sat, stamp_sat i sat s.poreInvSeq acc.2.1, stamp_sat i sat s.throatInvSeq acc.2.2)

def saturation_pass (net : PNNetwork) (s : IPState) : IPState :=
  let vtotal := net.poreVolume.sum + net.throatVolume.sum
  let r := (List.range' 1 s.tseq).foldl (sat_step net s vtotal)
    (0, List.replicate s.poreInvSeq.length 1, List.replicate s.throatInvSeq.length 1)
  { s with poreSat := r.2.1, throatSat := r.2.2 }

/-- The whole run (run and _do_outer_iteration_stage): setup, initial condition update, the
outer loop, then the saturation pass. -/
def run_IP (fuel : ℕ) (cfg : IPConfig) (net : PNNetwork) : Except String IPState := do
  let s ← setup_for_IP cfg net
  let s := condition_update cfg net s
  let s ← run_loop cfg net fuel s
  .ok (saturation_pass net s)

/-- Run setup plus at most n outer iterations (stopping early when the run
condition clears), exposing intermediate states of a run. -/
def ip_steps (cfg : IPConfig) (net : PNNetwork) : ℕ → IPState → Except String IPState
  | 0, s => .ok s
  | f + 1, s =>
    if s.condition then do
      let s2 ← do_one_outer_iteration cfg net s
      ip_steps cfg net f s2
    else .ok s

/-- Setup followed by exactly n outer iterations. -/
def ip_run_steps (cfg : IPConfig) (net : PNNetwork) (n : ℕ) : Except String IPState := do
  let s ← setup_for_IP cfg net
  ip_steps cfg net n (condition_update cfg net s)

/-- The occupancy-mask computation of update_results: a sequence cutoff is
used as given; otherwise a saturation cutoff selects the pores with
IP_inv_sat at or below it and the cutoff becomes the maximum pore sequence
number among them (0 when none qualify); otherwise the run's final tseq is
used.  An element is invaded when 0 < inv_seq ≤ cutoff. -/
def update_results_masks (s : IPState) (seqOpt : Option ℕ) (satOpt : Option ℚ) :
    List Bool × List Bool :=
  let ipseq : ℕ :=
    match seqOpt with
    | some q => q
    | none =>
      match satOpt with
      | some c =>
        if (s.poreSat.filter (fun x => decide (x ≤ c))).length = 0 then 0
        else (List.zip s.poreSat s.poreInvSeq).foldl
          (fun m pq => if pq.1 ≤ c then max m pq.2 else m) 0
      | none => s.tseq
  (s.poreInvSeq.map (fun q => decide (0 < q) && decide (q ≤ ipseq)),
   s.throatInvSeq.map (fun q => decide (0 < q) && decide (q ≤ ipseq)))

/-- The largest sequence number assigned to any pore or throat. -/
def max_assigned_seq (s : IPState) : ℕ :=
  max (s.poreInvSeq.foldl max 0) (s.throatInvSeq.foldl max 0)

/-- The minimum pending haines time (python min over the haines_time
array; 0 for the empty array, which cannot occur in a run). -/
def minHaines (s : IPState) : ℚ :=
  match s.hainesTime with
  | [] => 0
  | h :: t => t.foldl min h

end IPModel

namespace IPModel

/-- Two pores joined by one throat; pore 0 is the inlet, pore 1 the
outlet.  Breakthrough mode, timing off. -/
def net2 : PNNetwork :=
  { coords := [(0, 0, 0), (1, 0, 0)]
    poreVolume := [1, 1]
    throatVolume := [1]
    throatDiameter := [1]
    capPressure := [1]
    conns := [(0, 1)] }

def cfg2 : IPConfig :=
  { inlets := [0], outlets := [1], endTotal := false, timing := false, inletFlow := 1 }

/-- A triangle: pores 0,1,2, throats (0,1), (0,2), (1,2) with entry
pressures ascending with throat id.  Single inlet 0, outlet 2, total mode,
timing off.  The final invasion event closes the cycle through throat 2
without invading any pore. -/
def netTri : PNNetwork :=
  { coords := [(0, 0, 0), (1, 0, 0), (0, 1, 0)]
    poreVolume := [1, 1, 1]
    throatVolume := [1, 1, 1]
    throatDiameter := [1, 1, 1]
    capPressure := [1, 2, 3]
    conns := [(0, 1), (0, 2), (1, 2)] }

def cfgTri : IPConfig :=
  { inlets := [0], outlets := [2], endTotal := true, timing := false, inletFlow := 1 }

/-- A 2x2 grid: pores 0,1 on top, 2,3 below; throats t0=(0,1), t1=(2,3),
t2=(0,2), t3=(1,3).  Two inlet clusters at pores 0 and 3; after each grows
by one pore the two frontiers share the boundary throats t2 and t3, and the
third event merges the clusters through t2. -/
def netGrid : PNNetwork :=
  { coords := [(0, 0, 0), (1, 0, 0), (0, 1, 0), (1, 1, 0)]
    poreVolume := [1, 1, 1, 1]
    throatVolume := [1, 1, 1, 1]
    throatDiameter := [1, 1, 1, 1]
    capPressure := [1, 2, 3, 4]
    conns := [(0, 1), (2, 3), (0, 2), (1, 3)] }

def cfgGrid : IPConfig :=
  { inlets := [0, 3], outlets := [2], endTotal := true, timing := false, inletFlow := 1 }

/-- A chain 0-1-2 with two timed inlet clusters (pores 0 and 2) whose pore
volumes make both haines times exceed the sentinel value; pore 1 is the
outlet.  Cluster 1 breaks through at a simulation time above the sentinel,
is stamped with the (smaller) sentinel time, is then re-selected as the
minimum-time cluster, and its remaining frontier throat is invaded with a
clock that has moved backwards. -/
def netT8 : PNNetwork :=
  { coords := [(0, 0, 0), (1, 0, 0), (3, 0, 0)]
    poreVolume := [10000000000000000000000000000000000000000, 1,
      100000000000000000000000000000000000000000]
    throatVolume := [1, 1]
    throatDiameter := [1, 1]
    capPressure := [1, 2]
    conns := [(0, 1), (1, 2)] }

def cfgT8 : IPConfig :=
  { inlets := [0, 2], outlets := [1], endTotal := false, timing := true, inletFlow := 1 }

/-- The same chain with ordinary pore volumes (used as a well-behaved timed
configuration). -/
def netT9 : PNNetwork :=
  { coords := [(0, 0, 0), (1, 0, 0), (3, 0, 0)]
    poreVolume := [1, 1, 2]
    throatVolume := [1, 1]
    throatDiameter := [1, 1]
    capPressure := [1, 2]
    conns := [(0, 1), (1, 2)] }

/-- Two pores at identical coordinates: the inlet and outlet centroids
coincide and the initial distance of the progress computation is zero. -/
def netDeg : PNNetwork :=
  { coords := [(0, 0, 0), (0, 0, 0)]
    poreVolume := [1, 1]
    throatVolume := [1]
    throatDiameter := [1]
    capPressure := [1]
    conns := [(0, 1)] }

def cfgDeg : IPConfig := cfg2

def run2 : Except String IPState := run_IP 10 cfg2 net2
def runTri : Except String IPState := run_IP 10 cfgTri netTri
def gridStep3 : Except String IPState := ip_run_steps cfgGrid netGrid 3
def runT8 : Except String IPState := run_IP 10 cfgT8 netT8
def setupDeg : Except String IPState := setup_for_IP cfgDeg netDeg

end IPModel

namespace IPModel

/-- The state of the two-pore breakthrough run after setup and the initial
condition update (the state entering the first inner iteration stage). -/
def s2setup : IPState :=
  match setup_for_IP cfg2 net2 with
  | .ok s => condition_update cfg2 net2 s
  | .error _ => initState cfg2 net2

/-- The state of the two-pore run after its first inner iteration stage. -/
def s2next : IPState :=
  match do_inner_iteration_stage cfg2 net2 s2setup with
  | .ok s => s
  | .error _ => s2setup

/-- The state of the well-behaved timed chain run after setup and the
initial condition update. -/
def sT9 : IPState :=
  match setup_for_IP cfgT8 netT9 with
  | .ok s => condition_update cfgT8 netT9 s
  | .error _ => initState cfgT8 netT9

/-- The state of the well-behaved timed chain run after one outer
iteration. -/
def sT9next : IPState :=
  match do_one_outer_iteration cfgT8 netT9 sT9 with
  | .ok s => s
  | .error _ => sT9

/-- A small state with an uninvaded pore (sequence 0) and an invaded pore,
used to exercise the saturation pass. -/
def sWsat : IPState :=
  { initState cfg2 net2 with poreInvSeq := [0, 2], throatInvSeq := [2], tseq := 3 }

/-- The final state of the triangle run. -/
def sTriFinal : IPState :=
  match runTri with
  | .ok s => s
  | .error _ => initState cfgTri netTri

/-- The state produced by setup on the degenerate network whose inlet and
outlet centroids coincide. -/
def sDeg : IPState :=
  match setupDeg with
  | .ok s => s
  | .error _ => initState cfgDeg netDeg

/-- The final state of the two-pore breakthrough run. -/
def s2Final : IPState :=
  match run2 with
  | .ok s => s
  | .error _ => initState cfg2 net2

/-- The state of the 2x2-grid run after three outer iterations (the third
iteration merges the two clusters through throat 2). -/
def sGrid3 : IPState :=
  match gridStep3 with
  | .ok s => s
  | .error _ => initState cfgGrid netGrid

/-- The final state of the timed chain run with sentinel-exceeding haines
times. -/
def sT8Final : IPState :=
  match runT8 with
  | .ok s => s
  | .error _ => initState cfgT8 netT8

end IPModel

namespace IPModel

/-- A getD read is either an element of the list or the default. -/
theorem getD_mem_or_default {α : Type} (l : List α) (i : ℕ) (d : α) :
    l.getD i d ∈ l ∨ l.getD i d = d := by
  induction l generalizing i with
  | nil => simp [List.getD]
  | cons a t ih =>
    cases i with
    | zero => simp [List.getD]
    | succ j =>
      rcases ih j with h | h
      · exact Or.inl (List.mem_cons_of_mem a (by simpa [List.getD] using h))
      · simp [List.getD] at h ⊢
        tauto

/-- An in-range getD read is an element of the list. -/
theorem getD_mem {α : Type} (l : List α) (i : ℕ) (d : α) (h : i < l.length) :
    l.getD i d ∈ l := by
  induction l generalizing i with
  | nil => simp at h
  | cons a t ih =>
    cases i with
    | zero => simp [List.getD]
    | succ j =>
      simp at h
      exact List.mem_cons_of_mem a (by simpa [List.getD] using ih j (by omega))

/-- Reading back an in-range set entry. -/
theorem getD_set_self {α : Type} (l : List α) (i : ℕ) (a d : α) (h : i < l.length) :
    (l.set i a).getD i d = a := by
  induction l generalizing i with
  | nil => simp at h
  | cons b t ih =>
    cases i with
    | zero => simp [List.getD]
    | succ j => simpa [List.getD] using ih j (by simpa using h)

/-- Reading an entry other than the one set. -/
theorem getD_set_other {α : Type} (l : List α) (i j : ℕ) (a d : α) (h : i ≠ j) :
    (l.set i a).getD j d = l.getD j d := by
  induction l generalizing i j with
  | nil => simp
  | cons b t ih =>
    cases i with
    | zero =>
      cases j with
      | zero => exact absurd rfl h
      | succ j2 => simp [List.getD]
    | succ i2 =>
      cases j with
      | zero => simp [List.getD]
      | succ j2 => simpa [List.getD] using ih i2 j2 (by omega)

/-- Setting past the end of a list is a no-op. -/
theorem set_of_length_le {α : Type} (l : List α) (i : ℕ) (a : α) (h : l.length ≤ i) :
    l.set i a = l := by
  induction l generalizing i with
  | nil => simp
  | cons b t ih =>
    cases i with
    | zero => simp at h
    | succ j => simp [List.set, ih j (by simpa using h)]

/-- An in-range getD read of a mapped list. -/
theorem getD_map {α β : Type} (f : α → β) (l : List α) (i : ℕ) (d : β) (d2 : α)
    (h : i < l.length) : (l.map f).getD i d = f (l.getD i d2) := by
  induction l generalizing i with
  | nil => simp at h
  | cons a t ih =>
    cases i with
    | zero => simp [List.getD]
    | succ j => simpa [List.getD] using ih j (by simpa using h)

/-- A left fold with min is bounded by its starting value. -/
theorem foldl_min_le_init (t : List ℚ) (h : ℚ) : t.foldl min h ≤ h := by
  induction t generalizing h with
  | nil => simp
  | cons a r ih => exact le_trans (ih (min h a)) (min_le_left h a)

/-- A left fold with min is bounded by each list element. -/
theorem foldl_min_le_mem (t : List ℚ) (h x : ℚ) (hx : x ∈ t) : t.foldl min h ≤ x := by
  induction t generalizing h with
  | nil => simp at hx
  | cons a r ih =>
    rcases List.mem_cons.mp hx with rfl | hx2
    · exact le_trans (foldl_min_le_init r (min h x)) (min_le_right h x)
    · exact ih (min h a) hx2

/-- A lower bound of the start and of every element bounds the fold. -/
theorem le_foldl_min (t : List ℚ) (h c : ℚ) (hc : c ≤ h) (hall : ∀ x ∈ t, c ≤ x) :
    c ≤ t.foldl min h := by
  induction t generalizing h with
  | nil => simpa
  | cons a r ih =>
    exact ih (min h a) (le_min hc (hall a (List.mem_cons_self a r)))
      (fun x hx => hall x (List.mem_cons_of_mem a hx))

end IPModel

namespace IPModel

/-- With no active cluster every getD read of the activity array differs
from 1. -/
theorem scan_no_active_getD (active : List ℕ) (hna : ∀ x ∈ active, x ≠ 1) (m : ℕ) :
    active.getD m 0 ≠ 1 := by
  rcases getD_mem_or_default active m 0 with h | h
  · exact hna _ h
  · omega

/-- C2 (amended claim): when no cluster is active the round-robin scan of
_do_inner_iteration_stage never terminates: for every amount of fuel the
scan has not produced a cluster, and once a full cycle has elapsed
(loop_count at least 2) it logs the "No clusters active. Stuck in infinite
loop." error on every single further iteration while continuing to scan —
it signals the condition but does not abort. -/
theorem C2_scan_never_terminates (active : List ℕ) (orig cc fuel cnum lc errs : ℕ)
    (hna : ∀ x ∈ active, x ≠ 1) (hlc : 2 ≤ lc) :
    (cluster_scan active orig cc fuel cnum lc errs).1 = none ∧
    (cluster_scan active orig cc fuel cnum lc errs).2 = errs + fuel := by
  induction fuel generalizing cnum lc errs with
  | zero => simp [cluster_scan]
  | succ f ih =>
    have hfound := scan_no_active_getD active hna ((if cc < cnum then 1 else cnum) - 1)
    have hlc2 : 2 ≤ (if (if cc < cnum then 1 else cnum) = orig then lc + 1 else lc) := by
      split <;> split <;> omega
    have herr : (if 1 < (if (if cc < cnum then 1 else cnum) = orig then lc + 1 else lc)
        then errs + 1 else errs) = errs + 1 := by
      rw [if_pos (by omega)]
    simp only [cluster_scan, herr, if_neg hfound]
    refine ⟨(ih _ _ _ hlc2).1, ?_⟩
    rw [(ih _ _ _ hlc2).2]
    omega

/-- C2 witness for the amended theorem: two clusters, none active, already
past the first full cycle: five more iterations produce no cluster and five
more logged errors. -/
theorem C2_scan_never_terminates_witness :
    (cluster_scan [0, 0] 0 2 5 1 2 0).1 = none ∧
    (cluster_scan [0, 0] 0 2 5 1 2 0).2 = 0 + 5 :=
  C2_scan_never_terminates [0, 0] 0 2 5 1 2 0 (by decide) (by decide)

/-- C2 counterexample: with clusters 1 and 2 both inactive and the scan
started after cluster 2 (a reachable configuration of the scan), one
hundred iterations later the loop has neither aborted nor terminated — it
has logged the fatal "no active clusters" error 97 times and is still
scanning.  The claim that the run aborts (that the scan does not loop
forever) is false: the source only logs the error and keeps cycling. -/
theorem C2_counterexample :
    (cluster_scan [0, 0] 2 2 100 3 0 0).1 = none ∧
    (cluster_scan [0, 0] 2 2 100 3 0 0).2 = 97 := by decide

end IPModel

namespace IPModel

/-- A transform_merge never writes a value that is neither an existing
entry nor zero, so an id absent from the table (and nonzero) stays absent
under any further merge. -/
theorem transform_merge_not_mem (u : List ℕ) (m : ℕ) (hm : m ∉ u) (h0 : m ≠ 0)
    (l1 l2 : ℕ) : m ∉ transform_merge u l1 l2 := by
  intro hmem
  unfold transform_merge at hmem
  rcases List.mem_map.mp hmem with ⟨x, hx, hfx⟩
  by_cases hxm : x = max (resolve u l1) (resolve u l2)
  · rw [if_pos hxm] at hfx
    have h1 : resolve u l1 ∈ u ∨ resolve u l1 = 0 := getD_mem_or_default u (l1 - 1) 0
    have h2 : resolve u l2 ∈ u ∨ resolve u l2 = 0 := getD_mem_or_default u (l2 - 1) 0
    rcases min_cases (resolve u l1) (resolve u l2) with ⟨hEq, _⟩ | ⟨hEq, _⟩ <;>
      rw [hEq] at hfx
    · rcases h1 with h | h
      · exact hm (hfx ▸ h)
      · exact h0 (hfx ▸ h)
    · rcases h2 with h | h
      · exact hm (hfx ▸ h)
      · exact h0 (hfx ▸ h)
  · rw [if_neg hxm] at hfx
    exact hm (hfx ▸ hx)

/-- C4: a merge of two distinct canonical clusters a and b (each obtained
by resolving a pore label through the transform, exactly as the source
does) rewrites the transform so that resolving either participant yields
min(a,b); the retired id max(a,b) disappears from the table, and since a
merge only ever writes values already present in the table (or the
out-of-range default 0), no lookup after any sequence of further merges
ever reports the retired id as canonical again. -/
theorem C4_transform_merge (t : List ℕ) (l1 l2 : ℕ)
    (hinv : ∀ x ∈ t, 1 ≤ x ∧ x - 1 < t.length ∧ t.getD (x - 1) 0 = x)
    (h1 : l1 - 1 < t.length) (h2 : l2 - 1 < t.length)
    (hne : resolve t l1 ≠ resolve t l2) :
    resolve (transform_merge t l1 l2) (resolve t l1) = min (resolve t l1) (resolve t l2) ∧
    resolve (transform_merge t l1 l2) (resolve t l2) = min (resolve t l1) (resolve t l2) ∧
    max (resolve t l1) (resolve t l2) ∉ transform_merge t l1 l2 ∧
    ∀ (ops : List (ℕ × ℕ)) (c : ℕ),
      resolve (ops.foldl (fun u p => transform_merge u p.1 p.2) (transform_merge t l1 l2)) c ≠
        max (resolve t l1) (resolve t l2) := by
  have hamem : resolve t l1 ∈ t := getD_mem t (l1 - 1) 0 h1
  have hbmem : resolve t l2 ∈ t := getD_mem t (l2 - 1) 0 h2
  obtain ⟨ha1, ha2, ha3⟩ := hinv _ hamem
  obtain ⟨hb1, hb2, hb3⟩ := hinv _ hbmem
  have key : ∀ c, c - 1 < t.length → t.getD (c - 1) 0 = c →
      (c = resolve t l1 ∨ c = resolve t l2) →
      resolve (transform_merge t l1 l2) c = min (resolve t l1) (resolve t l2) := by
    intro c hlen hfix hab
    unfold resolve transform_merge
    rw [getD_map _ t (c - 1) 0 0 hlen, hfix]
    by_cases hcm : c = max (resolve t l1) (resolve t l2)
    · rw [if_pos hcm]; rfl
    · rw [if_neg hcm]
      rcases hab with rfl | rfl
      · rcases max_cases (resolve t l1) (resolve t l2) with ⟨hEq, hge⟩ | ⟨hEq, hlt⟩
        · exact absurd hEq.symm hcm
        · exact (min_eq_left (le_of_lt hlt)).symm
      · rcases max_cases (resolve t l1) (resolve t l2) with ⟨hEq, hge⟩ | ⟨hEq, hlt⟩
        · exact (min_eq_right hge).symm
        · exact absurd hEq.symm hcm
  have hmax0 : max (resolve t l1) (resolve t l2) ≠ 0 := by
    have := le_max_left (resolve t l1) (resolve t l2)
    omega
  have hnotmem : max (resolve t l1) (resolve t l2) ∉ transform_merge t l1 l2 := by
    intro hmem
    unfold transform_merge at hmem
    rcases List.mem_map.mp hmem with ⟨x, hx, hfx⟩
    by_cases hxm : x = max (resolve t l1) (resolve t l2)
    · rw [if_pos hxm] at hfx
      rcases Nat.le_total (resolve t l1) (resolve t l2) with h | h
      · rw [min_eq_left h, max_eq_right h] at hfx
        exact hne (le_antisymm h (hfx ▸ le_refl _))
      · rw [min_eq_right h, max_eq_left h] at hfx
        exact hne (le_antisymm (hfx ▸ le_refl _) h)
    · rw [if_neg hxm] at hfx
      exact hxm hfx
  have hpersist : ∀ (ops : List (ℕ × ℕ)) (u : List ℕ),
      max (resolve t l1) (resolve t l2) ∉ u →
      max (resolve t l1) (resolve t l2) ∉
        ops.foldl (fun u p => transform_merge u p.1 p.2) u := by
    intro ops
    induction ops with
    | nil => intro u h; simpa using h
    | cons p ps ih =>
      intro u h
      exact ih _ (transform_merge_not_mem u _ h hmax0 p.1 p.2)
  refine ⟨key _ ha2 ha3 (Or.inl rfl), key _ hb2 hb3 (Or.inr rfl), hnotmem, ?_⟩
  intro ops c hcontra
  rcases getD_mem_or_default
      (ops.foldl (fun u p => transform_merge u p.1 p.2) (transform_merge t l1 l2)) (c - 1) 0
    with h | h
  · exact hpersist ops _ hnotmem (hcontra ▸ h)
  · exact hmax0 (by rw [← hcontra]; exact h)

/-- C4 witness: the two-cluster identity transform [1, 2]; merging the
clusters named by labels 1 and 2 makes label 1 resolve to min(1,2) = 1. -/
theorem C4_transform_merge_witness :
    resolve (transform_merge [1, 2] 1 2) (resolve [1, 2] 1) =
      min (resolve [1, 2] 1) (resolve [1, 2] 2) :=
  (C4_transform_merge [1, 2] 1 2 (by decide) (by decide) (by decide) (by decide)).1

end IPModel

namespace IPModel

/-- C7: in a merge where at least one participant is already inactive (the
source tests active[max]+active[cur] < 2 on 0/1 activity flags), the
bookkeeping of lines 460-481 leaves the surviving canonical cluster cur
inactive, and with timing enabled its haines_time carries the sentinel
value, so the discrete-event selection never fires it again. -/
theorem C7_merge_inactive_propagates (timing : Bool) (cur maxC : ℕ)
    (active : List ℕ) (haines : List ℚ)
    (hc1 : 1 ≤ cur) (hlt : cur < maxC)
    (hal : cur - 1 < active.length) (hhl : cur - 1 < haines.length)
    (hb1 : active.getD (maxC - 1) 0 ≤ 1) (hb2 : active.getD (cur - 1) 0 ≤ 1)
    (hinact : active.getD (cur - 1) 0 = 0 ∨ active.getD (maxC - 1) 0 = 0) :
    (merge_bookkeeping timing cur maxC active haines).1.getD (cur - 1) 0 = 0 ∧
    (merge_bookkeeping true cur maxC active haines).2.getD (cur - 1) 0 = sentinelTime := by
  have hne : cur - 1 ≠ maxC - 1 := by omega
  have hcond : active.getD (maxC - 1) 0 + active.getD (cur - 1) 0 < 2 := by omega
  constructor
  · unfold merge_bookkeeping
    rw [if_pos hcond]
    rw [getD_set_other _ _ _ _ _ (Ne.symm hne)]
    rw [getD_set_self _ _ _ _ (by simpa using hal)]
  · unfold merge_bookkeeping
    rw [if_pos hcond]
    simp only [ite_true, if_true, Bool.if_true_left]
    rw [getD_set_other _ _ _ _ _ (Ne.symm hne)]
    rw [getD_set_self _ _ _ _ hhl]

/-- C7 witness: two clusters, the absorbed cluster 2 already inactive;
after the bookkeeping the survivor 1 is inactive with the sentinel time. -/
theorem C7_merge_inactive_propagates_witness :
    (merge_bookkeeping true 1 2 [1, 0] [0, 0]).1.getD 0 0 = 0 ∧
    (merge_bookkeeping true 1 2 [1, 0] [0, 0]).2.getD 0 0 = sentinelTime :=
  C7_merge_inactive_propagates true 1 2 [1, 0] [0, 0] (by decide) (by decide)
    (by decide) (by decide) (by decide) (by decide) (Or.inr (by decide))

/-- C9: the lazy-deletion cleanup loop of lines 526-536 removes exactly the
maximal prefix of entries whose throat is already invaded (by any cluster),
leaves a heap whose head (if any) is a still-uninvaded throat, and with
timing enabled subtracts exactly the volume coefficients of the discarded
entries from the running vol_coef (with timing off it leaves it alone). -/
theorem C9_cleanup_lazy_deletion (invaded : ℕ → Bool) (tvl : ℕ → ℚ)
    (q : List (ℚ × ℕ)) (v : ℚ) (timing : Bool) :
    (cleanup_loop timing invaded tvl q v).1 = q.dropWhile (fun e => invaded e.2) ∧
    ((cleanup_loop timing invaded tvl q v).1 = [] ∨
      ∃ e r2, (cleanup_loop timing invaded tvl q v).1 = e :: r2 ∧ invaded e.2 = false) ∧
    (cleanup_loop true invaded tvl q v).2.1 =
      v - ((q.takeWhile (fun e => invaded e.2)).map (fun e => tvl e.2)).sum ∧
    (cleanup_loop false invaded tvl q v).2.1 = v := by
  induction q generalizing v with
  | nil => simp [cleanup_loop]
  | cons e rest ih =>
    by_cases hi : invaded e.2
    · cases rest with
      | nil =>
        refine ⟨?_, ?_, ?_, ?_⟩ <;>
          simp [cleanup_loop, hi, List.dropWhile, List.takeWhile]
      | cons r0 rs =>
        have h1 := (ih (if timing then v - tvl e.2 else v)).1
        have h2 := (ih (if timing then v - tvl e.2 else v)).2.1
        have h3 := (ih (v - tvl e.2)).2.2.1
        have h4 := (ih v).2.2.2
        refine ⟨?_, ?_, ?_, ?_⟩
        · rw [show cleanup_loop timing invaded tvl (e :: r0 :: rs) v =
              cleanup_loop timing invaded tvl (r0 :: rs) (if timing then v - tvl e.2 else v)
              from by simp [cleanup_loop, hi]]
          rw [h1]
          simp [List.dropWhile_cons, hi]
        · rw [show cleanup_loop timing invaded tvl (e :: r0 :: rs) v =
              cleanup_loop timing invaded tvl (r0 :: rs) (if timing then v - tvl e.2 else v)
              from by simp [cleanup_loop, hi]]
          exact h2
        · rw [show cleanup_loop true invaded tvl (e :: r0 :: rs) v =
              cleanup_loop true invaded tvl (r0 :: rs) (v - tvl e.2)
              from by simp [cleanup_loop, hi]]
          rw [h3]
          simp [List.takeWhile_cons, hi]
          ring
        · rw [show cleanup_loop false invaded tvl (e :: r0 :: rs) v =
              cleanup_loop false invaded tvl (r0 :: rs) v
              from by simp [cleanup_loop, hi]]
          exact h4
    · have hif : invaded e.2 = false := by simpa using hi
      refine ⟨?_, Or.inr ⟨e, rest, ?_, hif⟩, ?_, ?_⟩ <;>
        simp [cleanup_loop, hif, List.dropWhile_cons, List.takeWhile_cons, hi]

end IPModel

namespace IPModel

/-- Reading inside a replicate gives the replicated value. -/
theorem getD_replicate {α : Type} (n i : ℕ) (a d : α) (h : i < n) :
    (List.replicate n a).getD i d = a := by
  induction n generalizing i with
  | zero => omega
  | succ m ih =>
    cases i with
    | zero => simp [List.replicate, List.getD]
    | succ j => simpa [List.replicate, List.getD] using ih j (by omega)

/-- The length of a stamped saturation array. -/
theorem stamp_sat_length (i : ℕ) (sat : ℚ) (qs : List ℕ) (vs : List ℚ) :
    (stamp_sat i sat qs vs).length = min qs.length vs.length := by
  induction qs generalizing vs with
  | nil => simp [stamp_sat]
  | cons q qt ih =>
    cases vs with
    | nil => simp [stamp_sat]
    | cons v vt => simp [stamp_sat, ih vt]; omega

/-- Stamping a sequence number leaves entries with a different sequence
number unchanged. -/
theorem stamp_sat_getD_ne (i : ℕ) (sat : ℚ) (qs : List ℕ) (vs : List ℚ) (p : ℕ)
    (hp : p < qs.length) (hv : p < vs.length) (hq : qs.getD p 0 ≠ i) :
    (stamp_sat i sat qs vs).getD p 0 = vs.getD p 0 := by
  induction qs generalizing vs p with
  | nil => simp at hp
  | cons q qt ih =>
    cases vs with
    | nil => simp at hv
    | cons v vt =>
      cases p with
      | zero =>
        have : q ≠ i := by simpa [List.getD] using hq
        simp [stamp_sat, List.getD, this]
      | succ p2 =>
        simpa [stamp_sat, List.getD] using
          ih vt p2 (by simpa using hp) (by simpa using hv) (by simpa [List.getD] using hq)

/-- The saturation fold never touches a pore whose sequence number is 0. -/
theorem satfold_pore (net : PNNetwork) (s : IPState) (vt : ℚ) (p : ℕ)
    (hp : p < s.poreInvSeq.length) (h0 : s.poreInvSeq.getD p 0 = 0) :
    ∀ (L : List ℕ) (acc : ℚ × List ℚ × List ℚ), (∀ i ∈ L, 1 ≤ i) →
      acc.2.1.length = s.poreInvSeq.length → acc.2.1.getD p 0 = 1 →
      (L.foldl (sat_step net s vt) acc).2.1.getD p 0 = 1 := by
  intro L
  induction L with
  | nil => intro acc _ _ h; simpa using h
  | cons i L2 ih =>
    intro acc hL hlen hval
    simp only [List.foldl_cons]
    refine ih _ (fun j hj => hL j (List.mem_cons_of_mem _ hj)) ?_ ?_
    · show (stamp_sat i _ s.poreInvSeq acc.2.1).length = _
      rw [stamp_sat_length, hlen, min_self]
    · show (stamp_sat i _ s.poreInvSeq acc.2.1).getD p 0 = 1
      rw [stamp_sat_getD_ne _ _ _ _ _ hp (by rw [hlen]; exact hp)
        (by rw [h0]; have := hL i (List.mem_cons_self i L2); omega)]
      exact hval

/-- The saturation fold never touches a throat whose sequence number is 0. -/
theorem satfold_throat (net : PNNetwork) (s : IPState) (vt : ℚ) (p : ℕ)
    (hp : p < s.throatInvSeq.length) (h0 : s.throatInvSeq.getD p 0 = 0) :
    ∀ (L : List ℕ) (acc : ℚ × List ℚ × List ℚ), (∀ i ∈ L, 1 ≤ i) →
      acc.2.2.length = s.throatInvSeq.length → acc.2.2.getD p 0 = 1 →
      (L.foldl (sat_step net s vt) acc).2.2.getD p 0 = 1 := by
  intro L
  induction L with
  | nil => intro acc _ _ h; simpa using h
  | cons i L2 ih =>
    intro acc hL hlen hval
    simp only [List.foldl_cons]
    refine ih _ (fun j hj => hL j (List.mem_cons_of_mem _ hj)) ?_ ?_
    · show (stamp_sat i _ s.throatInvSeq acc.2.2).length = _
      rw [stamp_sat_length, hlen, min_self]
    · show (stamp_sat i _ s.throatInvSeq acc.2.2).getD p 0 = 1
      rw [stamp_sat_getD_ne _ _ _ _ _ hp (by rw [hlen]; exact hp)
        (by rw [h0]; have := hL i (List.mem_cons_self i L2); omega)]
      exact hval

/-- C10: after the post-run saturation pass every pore and every throat
that was never invaded (inv_seq = 0) carries IP_inv_sat exactly 1, the
initialization value: the pass initializes both arrays to 1 and the
stamping loop only runs over sequence numbers 1..tseq, so uninvaded
elements are indistinguishable from elements invaded at full saturation. -/
theorem C10_uninvaded_sat_one (net : PNNetwork) (s : IPState) :
    (∀ p, p < s.poreInvSeq.length → s.poreInvSeq.getD p 0 = 0 →
      (saturation_pass net s).poreSat.getD p 0 = 1) ∧
    (∀ t, t < s.throatInvSeq.length → s.throatInvSeq.getD t 0 = 0 →
      (saturation_pass net s).throatSat.getD t 0 = 1) := by
  have hrange : ∀ i ∈ List.range' 1 s.tseq, 1 ≤ i := by
    intro i hi
    exact (List.mem_range'_1.mp hi).1
  constructor
  · intro p hp h0
    show ((List.range' 1 s.tseq).foldl
      (sat_step net s (net.poreVolume.sum + net.throatVolume.sum))
      (0, List.replicate s.poreInvSeq.length 1,
        List.replicate s.throatInvSeq.length 1)).2.1.getD p 0 = 1
    exact satfold_pore net s _ p hp h0 _ _ hrange (by simp) (getD_replicate _ _ _ _ hp)
  · intro t ht h0
    show ((List.range' 1 s.tseq).foldl
      (sat_step net s (net.poreVolume.sum + net.throatVolume.sum))
      (0, List.replicate s.poreInvSeq.length 1,
        List.replicate s.throatInvSeq.length 1)).2.2.getD t 0 = 1
    exact satfold_throat net s _ t ht h0 _ _ hrange (by simp) (getD_replicate _ _ _ _ ht)

unseal Rat.add Rat.mul Rat.sub Rat.inv in
/-- C10 witness: in a state whose pore 0 was never invaded, the saturation
pass leaves that pore's IP_inv_sat at 1. -/
theorem C10_uninvaded_sat_one_witness :
    (saturation_pass net2 sWsat).poreSat.getD 0 0 = 1 :=
  (C10_uninvaded_sat_one net2 sWsat).1 0 (by decide) (by decide)

end IPModel

namespace IPModel

unseal Rat.add Rat.mul Rat.sub Rat.inv in
/-- C6: on the degenerate network whose inlet and outlet pores share their
coordinates, setup completes with initial_distance equal to zero (the
squared centroid distance is 0, so the distance is 0), and the progress
formula (initial - current)/initial * 100 is evaluated with a zero divisor:
in numpy this is 0/0, a NaN, so progress is never reported as 100% (under
the total division of this model the quotient is 0, not 100).  The
division-by-zero guard the specification requires does not exist in the
code. -/
theorem C6_zero_initial_distance :
    setupDeg = Except.ok sDeg ∧ sDeg.initialDistSq = 0 ∧ percent_complete 0 0 = 0 :=
  ⟨rfl, by decide, by decide⟩

unseal Rat.add Rat.mul Rat.sub Rat.inv in
/-- C1 counterexample: in the two-pore breakthrough run the single
invasion event assigns sequence number 2 to both the invaded throat and
the newly invaded pore, so the inv_seq values assigned over the run
(1 to the inlet pore, then 2 and 2) are neither strictly increasing nor
free of repeats across pores and throats. -/
theorem C1_counterexample :
    run2 = Except.ok s2Final ∧ s2Final.poreInvSeq = [1, 2] ∧ s2Final.throatInvSeq = [2] :=
  ⟨rfl, by decide, by decide⟩

unseal Rat.add Rat.mul Rat.sub Rat.inv in
/-- C3 counterexample: after the third outer iteration of the 2x2-grid run
the clusters growing from pores 0 and 3 have merged through throat 2, and
the surviving cluster's frontier heap holds the shared boundary throat 3
twice (its throat list likewise holds throats 2 and 3 twice): the union of
the two frontiers does not deduplicate shared throats. -/
theorem C3_counterexample :
    gridStep3 = Except.ok sGrid3 ∧
    (sGrid3.tpoints.getD 0 []).map Prod.snd = [3, 3] ∧
    ((sGrid3.tpoints.getD 0 []).map Prod.snd).count 3 = 2 ∧
    sGrid3.tlists.getD 0 [] = [0, 2, 3, 1, 3, 2] :=
  ⟨rfl, by decide, by decide, by decide⟩

unseal Rat.add Rat.mul Rat.sub Rat.inv in
/-- C5 counterexample: the triangle run ends with a cycle-closing event
that invades throat 2 (sequence 4) without invading a pore, so the maximum
assigned sequence number is 4 while the maximum pore sequence number is 3.
The occupancy query with sequence cutoff 4 marks all three throats
invaded, but the saturation cutoff 1.0 resolves to sequence cutoff 3 and
leaves throat 2 out: the two masks differ. -/
theorem C5_counterexample :
    runTri = Except.ok sTriFinal ∧
    max_assigned_seq sTriFinal = 4 ∧
    update_results_masks sTriFinal (some 4) none ≠
      update_results_masks sTriFinal none (some 1) :=
  ⟨rfl, by decide, by decide⟩

unseal Rat.add Rat.mul Rat.sub Rat.inv in
/-- C8 counterexample: in the timed chain run whose haines times exceed
the sentinel value, cluster 1 breaks through at a simulation time above
10^32, its haines_time is reset to the sentinel 10^32, and the next event
selection moves the clock back down to the sentinel: throat 1 is invaded
at sequence 3 with a time stamp strictly below the stamp of throat 0
(sequence 2).  The run completes normally, and a later event carries an
earlier time: the clock is not non-decreasing. -/
theorem C8_counterexample :
    runT8 = Except.ok sT8Final ∧
    sT8Final.throatInvSeq = [2, 3] ∧
    sT8Final.throatInvTime.getD 1 0 < sT8Final.throatInvTime.getD 0 0 :=
  ⟨rfl, by decide, by decide⟩

end IPModel

namespace IPModel

/-- Cluster selection leaves the result arrays and counters untouched: it
only updates the current cluster (and, in timed mode, the clock). -/
theorem pick_cluster_fields (cfg : IPConfig) (s s1 : IPState)
    (h : pick_cluster cfg s = .ok s1) :
    s1.poreInvSeq = s.poreInvSeq ∧ s1.throatInvSeq = s.throatInvSeq ∧
    s1.tseq = s.tseq ∧ s1.poreClusterFinal = s.poreClusterFinal := by
  unfold pick_cluster at h
  by_cases ht : cfg.timing
  · rw [if_pos ht] at h
    cases heq : s.hainesTime with
    | nil => rw [heq] at h; exact absurd h (by simp)
    | cons h0 t =>
      rw [heq] at h
      simp only [Except.ok.injEq] at h
      subst h
      exact ⟨rfl, rfl, rfl, rfl⟩
  · rw [if_neg ht] at h
    cases hsc : (cluster_scan s.active s.currentCluster cfg.inlets.length
        (2 * cfg.inlets.length + 2) (s.currentCluster + 1) 0 0).1 with
    | none => rw [hsc] at h; exact absurd h (by simp)
    | some c =>
      rw [hsc] at h
      simp only [Except.ok.injEq] at h
      subst h
      exact ⟨rfl, rfl, rfl, rfl⟩

/-- Marking the invaded throat writes its sequence number and nothing else
among the sequence arrays and counters. -/
theorem mark_throat_fields (cfg : IPConfig) (net : PNNetwork) (s : IPState) (t : ℕ) :
    (mark_throat_invaded cfg net s t).poreInvSeq = s.poreInvSeq ∧
    (mark_throat_invaded cfg net s t).throatInvSeq = s.throatInvSeq.set t s.tseq ∧
    (mark_throat_invaded cfg net s t).tseq = s.tseq := by
  unfold mark_throat_invaded
  dsimp only
  split <;> exact ⟨rfl, rfl, rfl⟩

/-- The merge branch never touches the sequence arrays or the counter. -/
theorem merge_branch_fields (cfg : IPConfig) (net : PNNetwork) (s : IPState)
    (t pa pb : ℕ) :
    (merge_branch cfg net s t pa pb).poreInvSeq = s.poreInvSeq ∧
    (merge_branch cfg net s t pa pb).throatInvSeq = s.throatInvSeq ∧
    (merge_branch cfg net s t pa pb).tseq = s.tseq := by
  unfold merge_branch
  dsimp only
  split
  · split <;> exact ⟨rfl, rfl, rfl⟩
  · exact ⟨rfl, rfl, rfl⟩

/-- The growth branch writes the sequence number of exactly one pore (the
newly invaded one) and touches neither the throat sequence array nor the
counter. -/
theorem new_pore_branch_fields (cfg : IPConfig) (net : PNNetwork) (s : IPState)
    (t pa pb : ℕ) :
    (∃ p, (new_pore_branch cfg net s t pa pb).poreInvSeq = s.poreInvSeq.set p s.tseq) ∧
    (new_pore_branch cfg net s t pa pb).throatInvSeq = s.throatInvSeq ∧
    (new_pore_branch cfg net s t pa pb).tseq = s.tseq := by
  unfold new_pore_branch
  dsimp only
  refine ⟨⟨if s.poreClusterFinal.getD pa 0 = 0 then pa else pb, ?_⟩, ?_, ?_⟩ <;>
    (repeat' split) <;> rfl

/-- The lazy-deletion phase never touches the sequence arrays, the
counter, the haines times or the clock. -/
theorem cleanup_phase_fields (cfg : IPConfig) (net : PNNetwork) (s : IPState) :
    (cleanup_phase cfg net s).poreInvSeq = s.poreInvSeq ∧
    (cleanup_phase cfg net s).throatInvSeq = s.throatInvSeq ∧
    (cleanup_phase cfg net s).tseq = s.tseq ∧
    (cleanup_phase cfg net s).hainesTime = s.hainesTime ∧
    (cleanup_phase cfg net s).simTime = s.simTime ∧
    (cleanup_phase cfg net s).currentCluster = s.currentCluster := by
  unfold cleanup_phase
  dsimp only
  repeat' split
  all_goals exact ⟨rfl, rfl, rfl, rfl, rfl, rfl⟩

/-- The empty-heap deactivation never touches the sequence arrays, the
counter or the clock. -/
theorem empty_deactivate_fields (cfg : IPConfig) (s : IPState) :
    (empty_deactivate cfg s).poreInvSeq = s.poreInvSeq ∧
    (empty_deactivate cfg s).throatInvSeq = s.throatInvSeq ∧
    (empty_deactivate cfg s).tseq = s.tseq ∧
    (empty_deactivate cfg s).simTime = s.simTime ∧
    (empty_deactivate cfg s).currentCluster = s.currentCluster := by
  unfold empty_deactivate
  dsimp only
  repeat' split
  all_goals exact ⟨rfl, rfl, rfl, rfl, rfl⟩

/-- The haines-time recomputation never touches the sequence arrays, the
counter or the clock. -/
theorem timing_update_fields (cfg : IPConfig) (s : IPState) :
    (timing_update cfg s).poreInvSeq = s.poreInvSeq ∧
    (timing_update cfg s).throatInvSeq = s.throatInvSeq ∧
    (timing_update cfg s).tseq = s.tseq ∧
    (timing_update cfg s).simTime = s.simTime ∧
    (timing_update cfg s).currentCluster = s.currentCluster := by
  unfold timing_update
  dsimp only
  repeat' split
  all_goals exact ⟨rfl, rfl, rfl, rfl, rfl⟩

/-- The frontier cleanup of lines 524-560 never touches the sequence
arrays or the counter. -/
theorem post_cleanup_fields (cfg : IPConfig) (net : PNNetwork) (s : IPState) :
    (post_cleanup cfg net s).poreInvSeq = s.poreInvSeq ∧
    (post_cleanup cfg net s).throatInvSeq = s.throatInvSeq ∧
    (post_cleanup cfg net s).tseq = s.tseq := by
  unfold post_cleanup
  obtain ⟨c1, c2, c3, _, _, _⟩ := cleanup_phase_fields cfg net s
  obtain ⟨e1, e2, e3, _, _⟩ := empty_deactivate_fields cfg (cleanup_phase cfg net s)
  obtain ⟨t1, t2, t3, _, _⟩ := timing_update_fields cfg
    (empty_deactivate cfg (cleanup_phase cfg net s))
  exact ⟨by rw [t1, e1, c1], by rw [t2, e2, c2], by rw [t3, e3, c3]⟩

/-- The dispatch branch never touches the throat sequence array or the
counter, and writes the sequence number of at most one pore. -/
theorem invade_branch_seq (cfg : IPConfig) (net : PNNetwork) (s : IPState) (t : ℕ) :
    (invade_branch cfg net s t).throatInvSeq = s.throatInvSeq ∧
    (invade_branch cfg net s t).tseq = s.tseq ∧
    ((invade_branch cfg net s t).poreInvSeq = s.poreInvSeq ∨
      ∃ p, (invade_branch cfg net s t).poreInvSeq = s.poreInvSeq.set p s.tseq) := by
  unfold invade_branch
  split
  · obtain ⟨g1, g2, g3⟩ := merge_branch_fields cfg net s t
      (find_connected_pores net t).1 (find_connected_pores net t).2
    exact ⟨g2, g3, Or.inl g1⟩
  · obtain ⟨⟨p, g1⟩, g2, g3⟩ := new_pore_branch_fields cfg net s t
      (find_connected_pores net t).1 (find_connected_pores net t).2
    exact ⟨g2, g3, Or.inr ⟨p, g1⟩⟩

/-- One inner iteration writes the current sequence number to exactly one
throat and to at most one pore, and leaves the counter alone. -/
theorem inner_iteration_seq (cfg : IPConfig) (net : PNNetwork) (s s' : IPState)
    (h : do_one_inner_iteration cfg net s = .ok s') :
    s'.tseq = s.tseq ∧
    (∃ t, s'.throatInvSeq = s.throatInvSeq.set t s.tseq) ∧
    (s'.poreInvSeq = s.poreInvSeq ∨ ∃ p, s'.poreInvSeq = s.poreInvSeq.set p s.tseq) := by
  unfold do_one_inner_iteration at h
  cases heq : s.tpoints.getD (s.currentCluster - 1) [] with
  | nil => rw [heq] at h; exact absurd h (by simp)
  | cons e rest =>
    rw [heq] at h
    simp only [Except.ok.injEq] at h
    subst h
    obtain ⟨m1, m2, m3⟩ := mark_throat_fields cfg net
      { s with tpoints := s.tpoints.set (s.currentCluster - 1) rest } e.2
    obtain ⟨b1, b2, b3⟩ := invade_branch_seq cfg net
      (mark_throat_invaded cfg net
        { s with tpoints := s.tpoints.set (s.currentCluster - 1) rest } e.2) e.2
    obtain ⟨p1, p2, p3⟩ := post_cleanup_fields cfg net
      (invade_branch cfg net
        (mark_throat_invaded cfg net
          { s with tpoints := s.tpoints.set (s.currentCluster - 1) rest } e.2) e.2)
    refine ⟨by rw [p3, b2, m3], ⟨e.2, by rw [p2, b1, m2]⟩, ?_⟩
    rcases b3 with hsame | ⟨p, hset⟩
    · exact Or.inl (by rw [p1, hsame, m1])
    · exact Or.inr ⟨p, by rw [p1, hset, m1, m3]⟩

end IPModel

namespace IPModel

/-- Reduction of an Except bind on a success value. -/
theorem except_bind_ok {α β : Type} (a : α) (f : α → Except String β) :
    (Except.ok a >>= f) = f a := rfl

/-- Reduction of an Except bind on an error value. -/
theorem except_bind_err {α β : Type} (e : String) (f : α → Except String β) :
    ((Except.error e : Except String α) >>= f) = Except.error e := rfl

/-- C1 (amended claim): every inner iteration stage advances the event
counter tseq by exactly one, writes that event's number to exactly one
throat, and writes the same number to at most one pore (none in a merge
event).  Together with setup, which stamps every inlet pore with number 1
and then advances the counter, the inv_seq values assigned over a run are
contiguous from 1 and non-decreasing in assignment order, with strictly
increasing numbers across distinct events — but the throat and the pore
invaded by one event share that event's number, so the combined sequence
is not strictly increasing and is not free of repeats. -/
theorem C1_seq_per_event (cfg : IPConfig) (net : PNNetwork) (s s' : IPState)
    (h : do_inner_iteration_stage cfg net s = .ok s') :
    s'.tseq = s.tseq + 1 ∧
    (∃ t, s'.throatInvSeq = s.throatInvSeq.set t s.tseq) ∧
    (s'.poreInvSeq = s.poreInvSeq ∨ ∃ p, s'.poreInvSeq = s.poreInvSeq.set p s.tseq) := by
  unfold do_inner_iteration_stage at h
  cases hp : pick_cluster cfg s with
  | error e =>
    rw [hp] at h
    exact absurd h (by simp [except_bind_err])
  | ok s1 =>
    rw [hp, except_bind_ok] at h
    cases hi : do_one_inner_iteration cfg net s1 with
    | error e =>
      rw [hi] at h
      exact absurd h (by simp [except_bind_err])
    | ok s2 =>
      rw [hi, except_bind_ok] at h
      simp only [Except.ok.injEq] at h
      subst h
      obtain ⟨k1, k2, k3, _⟩ := pick_cluster_fields cfg s s1 hp
      obtain ⟨i1, i2, i3⟩ := inner_iteration_seq cfg net s1 s2 hi
      refine ⟨?_, ?_, ?_⟩
      · show s2.tseq + 1 = s.tseq + 1
        rw [i1, k3]
      · obtain ⟨t, ht⟩ := i2
        exact ⟨t, by show s2.throatInvSeq = _; rw [ht, k2, k3]⟩
      · rcases i3 with hsame | ⟨p, hset⟩
        · exact Or.inl (by show s2.poreInvSeq = _; rw [hsame, k1])
        · exact Or.inr ⟨p, by show s2.poreInvSeq = _; rw [hset, k1, k3]⟩

unseal Rat.add Rat.mul Rat.sub Rat.inv in
/-- C1 witness for the amended theorem: the first stage of the two-pore
run advances tseq from 2 to 3, stamps throat 0 with number 2 and pore 1
with the same number 2. -/
theorem C1_seq_per_event_witness :
    s2next.tseq = s2setup.tseq + 1 ∧
    (∃ t, s2next.throatInvSeq = s2setup.throatInvSeq.set t s2setup.tseq) ∧
    (s2next.poreInvSeq = s2setup.poreInvSeq ∨
      ∃ p, s2next.poreInvSeq = s2setup.poreInvSeq.set p s2setup.tseq) :=
  C1_seq_per_event cfg2 net2 s2setup s2next rfl

end IPModel

namespace IPModel

/-- C3 (amended claim): while a single cluster grows, a throat enters its
frontier at most once: a neighbouring throat is pushed onto the heap and
appended to the throat list only when it is not already in the throat
list, so a duplicate-free throat list stays duplicate-free through any
growth step.  (After a merge, by contrast, the union of two frontiers
keeps both copies of a shared boundary throat — see the counterexample.) -/
theorem C3_no_dup_in_growth (timing : Bool) (pres tvl : List ℚ) :
    ∀ (nbrs tl : List ℕ) (hp : List (ℚ × ℕ)) (vc : ℚ), tl.Nodup →
      (process_neighbors timing pres tvl nbrs tl hp vc).1.Nodup := by
  intro nbrs
  induction nbrs with
  | nil =>
    intro tl hp vc h
    simpa [process_neighbors] using h
  | cons j rest ih =>
    intro tl hp vc h
    unfold process_neighbors
    by_cases hj : tl.contains j = true
    · rw [if_pos hj]
      exact ih tl hp vc h
    · rw [if_neg hj]
      have hnot : j ∉ tl := by
        intro hmem
        exact hj (List.elem_eq_true_of_mem hmem)
      exact ih (tl ++ [j]) _ _ (by simp [List.nodup_append, h, hnot])

/-- C3 witness for the amended theorem: pushing neighbours 0 and 1 onto a
cluster already tracking throat 0 adds throat 1 only, keeping the throat
list duplicate-free. -/
theorem C3_no_dup_in_growth_witness :
    (process_neighbors false [1, 2] [0, 0] [0, 1] [0] [] 0).1.Nodup :=
  C3_no_dup_in_growth false [1, 2] [0, 0] [0, 1] [0] [] 0 (by simp)

/-- A fold of max over the sequence numbers, filtered by a saturation
bound that every entry meets, is the plain fold of max. -/
theorem zip_fold_max (sat : List ℚ) (seq : List ℕ) (c : ℚ)
    (h : ∀ x ∈ sat, x ≤ c) (hlen : sat.length = seq.length) :
    ∀ m, (sat.zip seq).foldl (fun m pq => if pq.1 ≤ c then max m pq.2 else m) m =
      seq.foldl max m := by
  induction sat generalizing seq with
  | nil =>
    intro m
    cases seq with
    | nil => simp
    | cons q qs => simp at hlen
  | cons x xs ih =>
    intro m
    cases seq with
    | nil => simp at hlen
    | cons q qs =>
      have hx : x ≤ c := h x (List.mem_cons_self x xs)
      simp only [List.zip_cons_cons, List.foldl_cons, if_pos hx]
      exact ih qs (fun y hy => h y (List.mem_cons_of_mem x hy)) (by simpa using hlen) _

/-- C5 (amended claim): the occupancy query with a saturation cutoff of
1.0 selects every pore (the saturation field never exceeds 1) and
therefore reproduces exactly the masks of a sequence cutoff equal to the
maximum assigned pore sequence number.  It reproduces the masks of the
overall maximum assigned sequence number only when that maximum is
attained by a pore; a run whose last event invades no pore separates the
two (see the counterexample). -/
theorem C5_sat_cutoff_is_pore_maxseq (s : IPState)
    (hlen : s.poreSat.length = s.poreInvSeq.length)
    (hne : s.poreSat ≠ [])
    (hsat : ∀ x ∈ s.poreSat, x ≤ 1) :
    update_results_masks s none (some 1) =
      update_results_masks s (some (s.poreInvSeq.foldl max 0)) none := by
  unfold update_results_masks
  dsimp only
  have hfilter : s.poreSat.filter (fun x => decide (x ≤ 1)) = s.poreSat :=
    List.filter_eq_self.mpr (fun x hx => by simpa using hsat x hx)
  have hcount : ¬(s.poreSat.filter (fun x => decide (x ≤ 1))).length = 0 := by
    rw [hfilter]
    simpa [List.length_eq_zero] using hne
  rw [if_neg hcount, zip_fold_max s.poreSat s.poreInvSeq 1 hsat hlen 0]

unseal Rat.add Rat.mul Rat.sub Rat.inv in
/-- C5 witness for the amended theorem: on the completed triangle run the
saturation cutoff 1.0 yields the masks of sequence cutoff 3, the maximum
pore sequence number. -/
theorem C5_sat_cutoff_is_pore_maxseq_witness :
    update_results_masks sTriFinal none (some 1) =
      update_results_masks sTriFinal (some (sTriFinal.poreInvSeq.foldl max 0)) none :=
  C5_sat_cutoff_is_pore_maxseq sTriFinal (by decide) (by decide) (by decide)

end IPModel

namespace IPModel

/-- Marking the invaded throat touches neither the haines times nor the
clock. -/
theorem mark_throat_haines (cfg : IPConfig) (net : PNNetwork) (s : IPState) (t : ℕ) :
    (mark_throat_invaded cfg net s t).hainesTime = s.hainesTime ∧
    (mark_throat_invaded cfg net s t).simTime = s.simTime := by
  unfold mark_throat_invaded
  dsimp only
  split <;> exact ⟨rfl, rfl⟩

/-- The growth branch touches neither the haines times nor the clock. -/
theorem new_pore_branch_haines (cfg : IPConfig) (net : PNNetwork) (s : IPState)
    (t pa pb : ℕ) :
    (new_pore_branch cfg net s t pa pb).hainesTime = s.hainesTime ∧
    (new_pore_branch cfg net s t pa pb).simTime = s.simTime := by
  unfold new_pore_branch
  dsimp only
  repeat' split
  all_goals exact ⟨rfl, rfl⟩

/-- The merge bookkeeping only ever writes the sentinel time into the
haines array. -/
theorem merge_bookkeeping_haines_mem (timing : Bool) (cur maxC : ℕ)
    (act : List ℕ) (h : List ℚ) (x : ℚ)
    (hx : x ∈ (merge_bookkeeping timing cur maxC act h).2) :
    x ∈ h ∨ x = sentinelTime := by
  unfold merge_bookkeeping at hx
  dsimp only at hx
  by_cases hc : act.getD (maxC - 1) 0 + act.getD (cur - 1) 0 < 2
  · rw [if_pos hc] at hx
    by_cases ht : timing = true
    · rw [if_pos ht, if_pos ht] at hx
      rcases List.mem_or_eq_of_mem_set hx with hx2 | rfl
      · rcases List.mem_or_eq_of_mem_set hx2 with hx3 | rfl
        · exact Or.inl hx3
        · exact Or.inr rfl
      · exact Or.inr rfl
    · rw [if_neg ht, if_neg ht] at hx
      exact Or.inl hx
  · rw [if_neg hc] at hx
    by_cases ht : timing = true
    · rw [if_pos ht] at hx
      rcases List.mem_or_eq_of_mem_set hx with hx2 | rfl
      · exact Or.inl hx2
      · exact Or.inr rfl
    · rw [if_neg ht] at hx
      exact Or.inl hx

/-- The merge branch leaves the clock alone, and every haines time after
it is either an old entry or the sentinel. -/
theorem merge_branch_haines (cfg : IPConfig) (net : PNNetwork) (s : IPState)
    (t pa pb : ℕ) :
    (merge_branch cfg net s t pa pb).simTime = s.simTime ∧
    ∀ x ∈ (merge_branch cfg net s t pa pb).hainesTime, x ∈ s.hainesTime ∨ x = sentinelTime := by
  unfold merge_branch
  dsimp only
  split
  · constructor
    · split <;> rfl
    · intro x hx
      split at hx <;> exact merge_bookkeeping_haines_mem _ _ _ _ _ _ hx
  · exact ⟨rfl, fun x hx => Or.inl hx⟩

/-- The dispatch branch leaves the clock alone, and every haines time
after it is either an old entry or the sentinel. -/
theorem invade_branch_haines (cfg : IPConfig) (net : PNNetwork) (s : IPState) (t : ℕ) :
    (invade_branch cfg net s t).simTime = s.simTime ∧
    ∀ x ∈ (invade_branch cfg net s t).hainesTime, x ∈ s.hainesTime ∨ x = sentinelTime := by
  unfold invade_branch
  split
  · exact merge_branch_haines cfg net s t _ _
  · obtain ⟨h1, h2⟩ := new_pore_branch_haines cfg net s t
      (find_connected_pores net t).1 (find_connected_pores net t).2
    exact ⟨h2, fun x hx => Or.inl (h1 ▸ hx)⟩

/-- The empty-heap deactivation only ever writes the sentinel time. -/
theorem empty_deactivate_haines_mem (cfg : IPConfig) (s : IPState) (x : ℚ)
    (hx : x ∈ (empty_deactivate cfg s).hainesTime) : x ∈ s.hainesTime ∨ x = sentinelTime := by
  unfold empty_deactivate at hx
  dsimp only at hx
  by_cases he : s.tpoints.getD (s.currentCluster - 1) [] = []
  · rw [if_pos he] at hx
    by_cases ht : cfg.timing = true
    · rw [if_pos ht] at hx
      rcases List.mem_or_eq_of_mem_set hx with hx2 | rfl
      · exact Or.inl hx2
      · exact Or.inr rfl
    · rw [if_neg ht] at hx
      exact Or.inl hx
  · rw [if_neg he] at hx
    exact Or.inl hx

/-- The haines-time recomputation preserves the clock lower bound: the
recomputed value is clamped up to the clock, every other write is the
clock itself, and untouched entries keep their old bound. -/
theorem timing_update_haines (cfg : IPConfig) (s : IPState)
    (hc : ∀ y ∈ s.hainesTime, s.simTime ≤ y) :
    ∀ x ∈ (timing_update cfg s).hainesTime, s.simTime ≤ x := by
  intro x hx
  unfold timing_update at hx
  dsimp only at hx
  by_cases ht : cfg.timing = true
  swap
  · rw [if_neg ht] at hx
    exact hc x hx
  rw [if_pos ht] at hx
  by_cases hl : s.currentCluster - 1 < s.hainesTime.length
  swap
  · rw [set_of_length_le s.hainesTime (s.currentCluster - 1) _ (by omega)] at hx
    by_cases ha : s.active.getD (s.currentCluster - 1) 0 = 1
    · rw [if_pos ha] at hx
      split at hx
      · rw [set_of_length_le _ (s.currentCluster - 1) _ (by simp; omega)] at hx
        exact hc x hx
      · exact hc x hx
    · rw [if_neg ha] at hx
      split at hx
      · rw [set_of_length_le _ (s.currentCluster - 1) _ (by omega)] at hx
        exact hc x hx
      · exact hc x hx
  by_cases ha : s.active.getD (s.currentCluster - 1) 0 = 1
  · rw [if_pos ha] at hx
    set v := (s.clusterPoreVolume.getD (s.currentCluster - 1) 0 +
      s.capVolume.getD (s.currentCluster - 1) 0) / s.flowRate.getD (s.currentCluster - 1) 0
      with hv
    by_cases hcl : (s.hainesTime.set (s.currentCluster - 1) v).getD (s.currentCluster - 1) 0
        < s.simTime
    · rw [if_pos hcl, List.set_set] at hx
      rcases List.mem_or_eq_of_mem_set hx with hx2 | rfl
      · exact hc x hx2
      · exact le_refl _
    · rw [if_neg hcl] at hx
      rcases List.mem_or_eq_of_mem_set hx with hx2 | rfl
      · exact hc x hx2
      · rw [getD_set_self s.hainesTime (s.currentCluster - 1) v 0 hl] at hcl
        exact le_of_not_lt hcl
  · rw [if_neg ha] at hx
    by_cases hcl : s.hainesTime.getD (s.currentCluster - 1) 0 < s.simTime
    · rw [if_pos hcl] at hx
      rcases List.mem_or_eq_of_mem_set hx with hx2 | rfl
      · exact hc x hx2
      · exact le_refl _
    · rw [if_neg hcl] at hx
      exact hc x hx

end IPModel

namespace IPModel

/-- The progress tracking touches neither the haines times nor the clock. -/
theorem cond_progress_haines (cfg : IPConfig) (net : PNNetwork) (s : IPState) :
    (cond_progress cfg net s).hainesTime = s.hainesTime ∧
    (cond_progress cfg net s).simTime = s.simTime := by
  unfold cond_progress
  repeat' split
  all_goals exact ⟨rfl, rfl⟩

/-- The outlet handling leaves the clock alone and only ever writes the
sentinel time. -/
theorem cond_outlet_haines (cfg : IPConfig) (s : IPState) :
    (cond_outlet cfg s).simTime = s.simTime ∧
    ∀ x ∈ (cond_outlet cfg s).hainesTime, x ∈ s.hainesTime ∨ x = sentinelTime := by
  unfold cond_outlet
  dsimp only
  constructor
  · repeat' split
    all_goals rfl
  · intro x hx
    by_cases ho : cfg.outlets.contains s.newPore = true
    · rw [if_pos ho] at hx
      by_cases he : cfg.endTotal = true
      · rw [if_pos he] at hx
        exact Or.inl hx
      · rw [if_neg he] at hx
        by_cases ht : cfg.timing = true
        · rw [if_pos ht] at hx
          rcases List.mem_or_eq_of_mem_set hx with hx2 | rfl
          · exact Or.inl hx2
          · exact Or.inr rfl
        · rw [if_neg ht] at hx
          exact Or.inl hx
    · rw [if_neg ho] at hx
      exact Or.inl hx

/-- Clearing the run condition touches neither the haines times nor the
clock. -/
theorem cond_finish_haines (s : IPState) :
    (cond_finish s).hainesTime = s.hainesTime ∧ (cond_finish s).simTime = s.simTime := by
  unfold cond_finish
  split <;> exact ⟨rfl, rfl⟩

/-- One inner iteration leaves the clock alone, and afterwards every
haines time still lies at or above the clock (requires the clock to be at
or below the sentinel, since merges and exhausted clusters are stamped
with the sentinel). -/
theorem inner_iteration_haines (cfg : IPConfig) (net : PNNetwork) (s s' : IPState)
    (hc : ∀ y ∈ s.hainesTime, s.simTime ≤ y) (hs : s.simTime ≤ sentinelTime)
    (h : do_one_inner_iteration cfg net s = .ok s') :
    s'.simTime = s.simTime ∧ ∀ x ∈ s'.hainesTime, s.simTime ≤ x := by
  unfold do_one_inner_iteration at h
  cases heq : s.tpoints.getD (s.currentCluster - 1) [] with
  | nil => rw [heq] at h; exact absurd h (by simp)
  | cons e rest =>
    rw [heq] at h
    simp only [Except.ok.injEq] at h
    subst h
    set s0 : IPState := { s with tpoints := s.tpoints.set (s.currentCluster - 1) rest }
      with hs0
    obtain ⟨mh, ms⟩ := mark_throat_haines cfg net s0 e.2
    obtain ⟨ih1, ih2⟩ := invade_branch_haines cfg net (mark_throat_invaded cfg net s0 e.2) e.2
    set sb : IPState := invade_branch cfg net (mark_throat_invaded cfg net s0 e.2) e.2
      with hsb
    have hbsim : sb.simTime = s.simTime := by rw [ih1, ms]
    have hbh : ∀ x ∈ sb.hainesTime, s.simTime ≤ x := by
      intro x hx
      rcases ih2 x hx with hmem | rfl
      · exact hc x (by rw [mh] at hmem; exact hmem)
      · exact hs
    obtain ⟨_, _, _, ch, cs, _⟩ := cleanup_phase_fields cfg net sb
    set sc : IPState := cleanup_phase cfg net sb with hsc
    obtain ⟨_, _, _, es, _⟩ := empty_deactivate_fields cfg sc
    set sd : IPState := empty_deactivate cfg sc with hsd
    have hdsim : sd.simTime = s.simTime := by rw [es, cs, hbsim]
    have hdh : ∀ x ∈ sd.hainesTime, s.simTime ≤ x := by
      intro x hx
      rcases empty_deactivate_haines_mem cfg sc x hx with hmem | rfl
      · exact hbh x (by rw [ch] at hmem; exact hmem)
      · exact hs
    obtain ⟨_, _, _, ts, _⟩ := timing_update_fields cfg sd
    constructor
    · show (timing_update cfg sd).simTime = s.simTime
      rw [ts, hdsim]
    · show ∀ x ∈ (timing_update cfg sd).hainesTime, s.simTime ≤ x
      intro x hx
      have := timing_update_haines cfg sd (by rw [hdsim]; exact hdh) x hx
      rw [hdsim] at this
      exact this

/-- In timed mode the cluster pick leaves the haines array alone and sets
the clock to the minimum pending haines time. -/
theorem pick_cluster_timed (cfg : IPConfig) (s s1 : IPState) (htm : cfg.timing = true)
    (h : pick_cluster cfg s = .ok s1) :
    s1.hainesTime = s.hainesTime ∧ s1.simTime = minHaines s := by
  unfold pick_cluster at h
  rw [if_pos htm] at h
  cases heq : s.hainesTime with
  | nil => rw [heq] at h; exact absurd h (by simp)
  | cons h0 t =>
    rw [heq] at h
    simp only [Except.ok.injEq] at h
    subst h
    refine ⟨rfl, ?_⟩
    show t.foldl min h0 = minHaines s
    unfold minHaines
    rw [heq]

/-- In timed mode one inner iteration stage moves the clock up to the
minimum pending haines time, and afterwards every haines time lies at or
above the new clock, which itself stays at or below the sentinel. -/
theorem stage_clock (cfg : IPConfig) (net : PNNetwork) (s s' : IPState)
    (htm : cfg.timing = true)
    (hInv : ∀ x ∈ s.hainesTime, s.simTime ≤ x)
    (hmin : minHaines s ≤ sentinelTime)
    (hne : s.hainesTime ≠ [])
    (h : do_inner_iteration_stage cfg net s = .ok s') :
    s.simTime ≤ s'.simTime ∧ (∀ x ∈ s'.hainesTime, s'.simTime ≤ x) ∧
    s'.simTime ≤ sentinelTime := by
  unfold do_inner_iteration_stage at h
  cases hp : pick_cluster cfg s with
  | error e =>
    rw [hp] at h
    exact absurd h (by simp [except_bind_err])
  | ok s1 =>
    rw [hp, except_bind_ok] at h
    cases hi : do_one_inner_iteration cfg net s1 with
    | error e =>
      rw [hi] at h
      exact absurd h (by simp [except_bind_err])
    | ok s2 =>
      rw [hi, except_bind_ok] at h
      simp only [Except.ok.injEq] at h
      subst h
      obtain ⟨ph, psim⟩ := pick_cluster_timed cfg s s1 htm hp
      have hm1 : ∀ x ∈ s1.hainesTime, s1.simTime ≤ x := by
        rw [ph, psim]
        unfold minHaines
        cases heq : s.hainesTime with
        | nil => simp
        | cons h0 t =>
          intro x hx
          rcases List.mem_cons.mp hx with rfl | hx2
          · exact foldl_min_le_init t x
          · exact foldl_min_le_mem t h0 x hx2
      have hstart : s.simTime ≤ s1.simTime := by
        rw [psim]
        unfold minHaines
        cases heq : s.hainesTime with
        | nil => exact absurd heq hne
        | cons h0 t =>
          exact le_foldl_min t h0 s.simTime (hInv h0 (heq ▸ List.mem_cons_self h0 t))
            (fun x hx => hInv x (heq ▸ List.mem_cons_of_mem h0 hx))
      have hs1sent : s1.simTime ≤ sentinelTime := by rw [psim]; exact hmin
      obtain ⟨isim, ibound⟩ := inner_iteration_haines cfg net s1 s2 hm1 hs1sent hi
      refine ⟨?_, ?_, ?_⟩
      · show s.simTime ≤ s2.simTime
        rw [isim]
        exact hstart
      · show ∀ x ∈ s2.hainesTime, s2.simTime ≤ x
        intro x hx
        rw [isim]
        exact ibound x hx
      · show s2.simTime ≤ sentinelTime
        rw [isim]
        exact hs1sent

/-- C8 (amended claim): in timed mode, as long as the minimum pending
event time has not passed the finite sentinel 10^32 that the source uses
in place of infinity, every outer iteration moves the global clock
forwards (the clock becomes the minimum pending haines time, every
recomputed haines time is clamped up to the clock, and every other write
is the sentinel), and afterwards every pending haines time again lies at
or above the clock.  The sentinel hypothesis is necessary: once haines
times exceed 10^32, a breakthrough resets a cluster's time to the
sentinel and the next selection moves the clock backwards (see the
counterexample). -/
theorem C8_clock_monotone_step (cfg : IPConfig) (net : PNNetwork) (s s' : IPState)
    (htm : cfg.timing = true)
    (hInv : ∀ x ∈ s.hainesTime, s.simTime ≤ x)
    (hmin : minHaines s ≤ sentinelTime)
    (hne : s.hainesTime ≠ [])
    (h : do_one_outer_iteration cfg net s = .ok s') :
    s.simTime ≤ s'.simTime ∧ ∀ x ∈ s'.hainesTime, s'.simTime ≤ x := by
  unfold do_one_outer_iteration at h
  cases hst : do_inner_iteration_stage cfg net s with
  | error e =>
    rw [hst] at h
    exact absurd h (by simp [except_bind_err])
  | ok s2 =>
    rw [hst, except_bind_ok] at h
    simp only [Except.ok.injEq] at h
    subst h
    obtain ⟨hmono, hbound, hsent⟩ := stage_clock cfg net s s2 htm hInv hmin hne hst
    obtain ⟨gh, gs⟩ := cond_progress_haines cfg net s2
    set sg : IPState := cond_progress cfg net s2 with hsg
    obtain ⟨os, omem⟩ := cond_outlet_haines cfg sg
    set so : IPState := cond_outlet cfg sg with hso
    obtain ⟨fh, fs⟩ := cond_finish_haines so
    constructor
    · show s.simTime ≤ (cond_finish so).simTime
      rw [fs, os, gs]
      exact hmono
    · show ∀ x ∈ (cond_finish so).hainesTime, (cond_finish so).simTime ≤ x
      intro x hx
      rw [fh] at hx
      rw [fs, os, gs]
      rcases omem x hx with hmem | rfl
      · exact hbound x (by rw [gh] at hmem; exact hmem)
      · exact hsent

end IPModel

namespace IPModel

unseal Rat.add Rat.mul Rat.sub Rat.inv in
/-- C8 witness for the amended theorem: one outer iteration of the
well-behaved timed chain run (clock 0, small haines times) moves the clock
forwards and keeps every haines time at or above it. -/
theorem C8_clock_monotone_step_witness :
    sT9.simTime ≤ sT9next.simTime ∧ ∀ x ∈ sT9next.hainesTime, sT9next.simTime ≤ x :=
  C8_clock_monotone_step cfgT8 netT9 sT9 sT9next rfl (by decide) (by decide)
    (by decide) rfl

end IPModel
